import Mathlib

/-!
Verification of the travel-planning workflow of `travelAgent_backend`.

The definitions below are a shallow embedding of the Python sources:

* `src/agents/travel_workflow.py` — search/extract/plan workflow, the
  accumulator merge `_merge_extracted_info`, the quality gate
  `check_info_quality`, the JSON recovery helpers `_extract_json`,
  `_fix_json_string`, `_safe_parse_json`, `_fix_json_line_by_line`,
  the fallback plan `_create_fallback_plan`, and the query generator
  `LLMSearchQueryGenerator`.
* `src/agents/nodes.py` — `normalize_schedule_item` and `_get_poi`.
* `src/tools/travel_plan_tool.py` and `src/utils/token_budget.py` —
  `TravelPlanTool._run` / `_get_token_budget` and the `TokenBudget`
  dataclass.
* `src/utils/value_evaluator.py` — `InformationValueEvaluator`.

Modelling conventions.  JSON dictionaries manipulated by the code are
given their schema types; a string field that the code reads with
`d.get(k, "")` is a `String` with `""` standing for absent, and a field
read with `d.get(k)` whose truthiness is tested is an `Option`.  A CPython
`set` built by successive inserts is modelled as a first-occurrence
de-duplicated list (CPython iteration order is hash-table dependent; the
model fixes insertion order, which is the only determinate refinement).
Python floats are modelled as rationals, `str.lower` as `String.toLower`,
and machine integers as `Int`/`Nat` (no value in these code paths can
overflow 64 bits).
-/

namespace TravelAgent

/-! ## List helpers modelling Python `set` and `dict` idioms -/

/-- First-occurrence de-duplication with an explicit list of already seen
elements; models inserting the elements of a list one by one into a
CPython `set` and listing the result. -/
def fdAux (seen : List String) : List String → List String
  | [] => []
  | a :: l => if a ∈ seen then fdAux seen l else a :: fdAux (a :: seen) l

/-- Models `list(set(l))` under the insertion-order convention. -/
def firstDedup (l : List String) : List String := fdAux [] l

/-- Models `s = set(ex); s.update(new); list(s)`. -/
def pyUnion (ex new : List String) : List String := firstDedup (ex ++ new)

theorem mem_fdAux {a : String} : ∀ {seen l : List String},
    a ∈ fdAux seen l ↔ a ∈ l ∧ a ∉ seen := by
  intro seen l
  induction l generalizing seen with
  | nil => simp [fdAux]
  | cons b l ih =>
    by_cases hb : b ∈ seen
    · simp only [fdAux, if_pos hb, ih, List.mem_cons]
      constructor
      · rintro ⟨h1, h2⟩; exact ⟨Or.inr h1, h2⟩
      · rintro ⟨h1 | h1, h2⟩
        · exact absurd (h1 ▸ hb) h2
        · exact ⟨h1, h2⟩
    · simp only [fdAux, if_neg hb, List.mem_cons, ih]
      constructor
      · rintro (rfl | ⟨h1, h2⟩)
        · exact ⟨Or.inl rfl, hb⟩
        · refine ⟨Or.inr h1, fun hc => h2 (by simp [List.mem_cons, hc])⟩
      · rintro ⟨rfl | h1, h2⟩
        · exact Or.inl rfl
        · by_cases hab : a = b
          · exact Or.inl hab
          · exact Or.inr ⟨h1, by simp [List.mem_cons, hab, h2]⟩

theorem fdAux_nodup : ∀ (seen l : List String), (fdAux seen l).Nodup := by
  intro seen l
  induction l generalizing seen with
  | nil => simp [fdAux]
  | cons b l ih =>
    by_cases hb : b ∈ seen
    · simpa [fdAux, hb] using ih seen
    · simp only [fdAux, if_neg hb, List.nodup_cons]
      refine ⟨fun hc => ?_, ih (b :: seen)⟩
      exact (mem_fdAux.1 hc).2 (List.mem_cons_self b seen)

theorem fdAux_eq_self : ∀ {seen l : List String}, l.Nodup →
    (∀ a ∈ l, a ∉ seen) → fdAux seen l = l := by
  intro seen l hn hd
  induction l generalizing seen with
  | nil => simp [fdAux]
  | cons b l ih =>
    have hb : b ∉ seen := hd b (List.mem_cons_self b l)
    simp only [fdAux, if_neg hb]
    congr 1
    refine ih (List.nodup_cons.1 hn).2 ?_
    intro a ha
    simp only [List.mem_cons]
    rintro (rfl | hseen)
    · exact (List.nodup_cons.1 hn).1 ha
    · exact hd a (List.mem_cons_of_mem _ ha) hseen

theorem fdAux_append_absorb : ∀ {seen l m : List String},
    (∀ a ∈ m, a ∈ l ∨ a ∈ seen) → fdAux seen (l ++ m) = fdAux seen l := by
  intro seen l m h
  induction l generalizing seen with
  | nil =>
    simp only [List.nil_append, fdAux]
    induction m generalizing seen with
    | nil => simp [fdAux]
    | cons b m ihm =>
      have hb : b ∈ seen := by
        rcases h b (List.mem_cons_self b m) with h1 | h1
        · exact absurd h1 (List.not_mem_nil b)
        · exact h1
      simp only [fdAux, if_pos hb]
      exact ihm fun a ha => h a (List.mem_cons_of_mem _ ha)
  | cons b l ih =>
    by_cases hb : b ∈ seen
    · simp only [List.cons_append, fdAux, if_pos hb]
      refine ih ?_
      intro a ha
      rcases h a ha with h1 | h1
      · rcases List.mem_cons.1 h1 with rfl | h2
        · exact Or.inr hb
        · exact Or.inl h2
      · exact Or.inr h1
    · simp only [List.cons_append, fdAux, if_neg hb]
      congr 1
      refine ih ?_
      intro a ha
      rcases h a ha with h1 | h1
      · rcases List.mem_cons.1 h1 with rfl | h2
        · exact Or.inr (List.mem_cons_self a seen)
        · exact Or.inl h2
      · exact Or.inr (List.mem_cons_of_mem _ h1)

theorem firstDedup_nodup (l : List String) : (firstDedup l).Nodup :=
  fdAux_nodup [] l

theorem mem_firstDedup {a : String} {l : List String} :
    a ∈ firstDedup l ↔ a ∈ l := by
  simp [firstDedup, mem_fdAux]

theorem firstDedup_eq_self {l : List String} (h : l.Nodup) :
    firstDedup l = l :=
  fdAux_eq_self h (by simp)

theorem pyUnion_nodup (l m : List String) : (pyUnion l m).Nodup :=
  firstDedup_nodup _

theorem mem_pyUnion {a : String} {l m : List String} :
    a ∈ pyUnion l m ↔ a ∈ l ∨ a ∈ m := by
  simp [pyUnion, mem_firstDedup]

theorem pyUnion_eq_self {l m : List String} (h1 : l.Nodup)
    (h2 : ∀ a ∈ m, a ∈ l) : pyUnion l m = l := by
  unfold pyUnion firstDedup
  rw [fdAux_append_absorb (fun a ha => Or.inl (h2 a ha))]
  exact firstDedup_eq_self h1

theorem pyUnion_idem (l m : List String) :
    pyUnion (pyUnion l m) m = pyUnion l m :=
  pyUnion_eq_self (pyUnion_nodup l m) (fun a ha => mem_pyUnion.2 (Or.inr ha))

/-- Generic transcription of the `seen = {keys of existing}; for item in new:
if key(item) unseen: append and mark seen` loops of `_merge_extracted_info`
(routes, food specialties, restaurants, food streets, avoid items). -/
def addKeyed {α β : Type} [DecidableEq β] (key : α → β) (guard : α → Bool) :
    List α → List β → List α → List α
  | acc, _, [] => acc
  | acc, seen, n :: rest =>
    if guard n = true ∧ key n ∉ seen then
      addKeyed key guard (acc ++ [n]) (seen ++ [key n]) rest
    else addKeyed key guard acc seen rest

theorem addKeyed_suffix {α β : Type} [DecidableEq β] (key : α → β)
    (guard : α → Bool) :
    ∀ (news : List α) (acc : List α) (seen : List β),
      ∃ s, addKeyed key guard acc seen news = acc ++ s := by
  intro news
  induction news with
  | nil => intro acc seen; exact ⟨[], by simp [addKeyed]⟩
  | cons n rest ih =>
    intro acc seen
    by_cases h : guard n = true ∧ key n ∉ seen
    · obtain ⟨s, hs⟩ := ih (acc ++ [n]) (seen ++ [key n])
      exact ⟨[n] ++ s, by simp [addKeyed, h, hs]⟩
    · obtain ⟨s, hs⟩ := ih acc seen
      exact ⟨s, by simp [addKeyed, h, hs]⟩

theorem addKeyed_skip_all {α β : Type} [DecidableEq β] (key : α → β)
    (guard : α → Bool) :
    ∀ {news : List α} {acc : List α} {seen : List β},
      (∀ n ∈ news, guard n = true → key n ∈ seen) →
      addKeyed key guard acc seen news = acc := by
  intro news
  induction news with
  | nil => intro acc seen _; rfl
  | cons n rest ih =>
    intro acc seen h
    have hn : ¬(guard n = true ∧ key n ∉ seen) := by
      rintro ⟨hg, hk⟩
      exact hk (h n (List.mem_cons_self n rest) hg)
    simp only [addKeyed, if_neg hn]
    exact ih fun m hm hg => h m (List.mem_cons_of_mem _ hm) hg

theorem addKeyed_keys_covered {α β : Type} [DecidableEq β] (key : α → β)
    (guard : α → Bool) :
    ∀ {news : List α} {acc : List α} {seen : List β},
      (∀ b ∈ seen, b ∈ acc.map key) →
      ∀ n ∈ news, guard n = true →
        key n ∈ (addKeyed key guard acc seen news).map key := by
  intro news
  induction news with
  | nil => intro acc seen _ n hn; exact absurd hn (List.not_mem_nil n)
  | cons m rest ih =>
    intro acc seen hseen n hn hg
    by_cases hc : guard m = true ∧ key m ∉ seen
    · simp only [addKeyed, if_pos hc]
      have hseen' : ∀ b ∈ seen ++ [key m], b ∈ (acc ++ [m]).map key := by
        intro b hb
        rcases List.mem_append.1 hb with hb | hb
        · simpa using Or.inl (hseen b hb)
        · simp only [List.mem_singleton] at hb
          simp [hb]
      rcases List.mem_cons.1 hn with rfl | hn'
      · obtain ⟨s, hs⟩ := addKeyed_suffix key guard rest (acc ++ [n]) (seen ++ [key n])
        rw [hs]
        simp
      · exact ih hseen' n hn' hg
    · simp only [addKeyed, if_neg hc]
      rcases List.mem_cons.1 hn with rfl | hn'
      · have hks : key n ∈ seen := by
          rcases not_and_or.1 hc with h1 | h1
          · exact absurd hg h1
          · exact not_not.1 h1
        obtain ⟨s, hs⟩ := addKeyed_suffix key guard rest acc seen
        rw [hs, List.map_append]
        exact List.mem_append.2 (Or.inl (hseen _ hks))
      · exact ih hseen n hn' hg

/-- One-pass idempotence of the keyed-append loop: running the same batch a
second time over the output (with the seen-set rebuilt from the output's
keys) appends nothing. -/
theorem addKeyed_idem {α β : Type} [DecidableEq β] (key : α → β)
    (guard : α → Bool) (news acc : List α) (seen : List β)
    (hseen : ∀ b ∈ seen, b ∈ acc.map key)
    {seen2 : List β}
    (hseen2 : ∀ b ∈ (addKeyed key guard acc seen news).map key, b ∈ seen2) :
    addKeyed key guard (addKeyed key guard acc seen news) seen2 news =
      addKeyed key guard acc seen news := by
  refine addKeyed_skip_all key guard ?_
  intro n hn hg
  exact hseen2 _ (addKeyed_keys_covered key guard hseen n hn hg)

/-! ## Update-the-last-matching-element helpers

`_merge_extracted_info` keeps `existing_area_map = {a["area"]: a for a in
existing}` alongside the list; since dict comprehension keeps the last
value per key and matched updates mutate that dict value in place, the
functional reading is: update the last element of the list whose key
matches. -/

def updateLast {α : Type} (p : α → Bool) (f : α → α) : List α → List α
  | [] => []
  | a :: l =>
    if l.any p then a :: updateLast p f l
    else if p a then f a :: l else a :: l

/-- The last element of `l` satisfying `p` (if any) satisfies `P`. -/
def lastSat {α : Type} (p : α → Bool) (P : α → Prop) : List α → Prop
  | [] => True
  | a :: l => if l.any p then lastSat p P l else (p a = true → P a)

theorem updateLast_eq_self {α : Type} {p : α → Bool} {f : α → α} :
    ∀ {l : List α}, lastSat p (fun x => f x = x) l → updateLast p f l = l := by
  intro l h
  induction l with
  | nil => rfl
  | cons a l ih =>
    by_cases ha : l.any p = true
    · simp only [lastSat, if_pos ha] at h
      simp [updateLast, ha, ih h]
    · simp only [lastSat, if_neg ha] at h
      by_cases hpa : p a = true
      · simp [updateLast, ha, hpa, h hpa]
      · simp [updateLast, ha, hpa]

theorem any_updateLast {α : Type} {p : α → Bool} {f : α → α} (q : α → Bool)
    (hq : ∀ x, p x = true → q (f x) = q x) :
    ∀ l : List α, (updateLast p f l).any q = l.any q := by
  intro l
  induction l with
  | nil => rfl
  | cons a l ih =>
    by_cases ha : l.any p = true
    · simp [updateLast, ha, ih]
    · by_cases hpa : p a = true
      · simp [updateLast, ha, hpa, hq a hpa]
      · simp [updateLast, ha, hpa]

theorem lastSat_mono {α : Type} {p : α → Bool} {P Q : α → Prop}
    (h : ∀ x, p x = true → P x → Q x) :
    ∀ {l : List α}, lastSat p P l → lastSat p Q l := by
  intro l hl
  induction l with
  | nil => trivial
  | cons a l ih =>
    by_cases ha : l.any p = true
    · simp only [lastSat, if_pos ha] at hl ⊢; exact ih hl
    · simp only [lastSat, if_neg ha] at hl ⊢
      exact fun hpa => h a hpa (hl hpa)

theorem lastSat_updateLast_establish {α : Type} {p : α → Bool} {f : α → α}
    {P : α → Prop} (hpf : ∀ x, p (f x) = p x)
    (hP : ∀ x, p x = true → P (f x)) :
    ∀ {l : List α}, l.any p = true → lastSat p P (updateLast p f l) := by
  intro l hany
  induction l with
  | nil => simp at hany
  | cons a l ih =>
    by_cases ha : l.any p = true
    · have hu : (updateLast p f l).any p = true := by
        rw [any_updateLast p (fun x hx => hpf x)]; exact ha
      simp only [updateLast, if_pos ha, lastSat, if_pos hu]
      exact ih ha
    · have hpa : p a = true := by
        simp only [List.any_cons, ha, Bool.or_false] at hany
        exact hany
      simp only [updateLast, if_neg ha, if_pos hpa, lastSat, if_neg ha]
      exact fun _ => hP a hpa

theorem lastSat_updateLast_mono {α : Type} {p : α → Bool} {f : α → α}
    {P : α → Prop} (hpf : ∀ x, p (f x) = p x)
    (hmono : ∀ x, p x = true → P x → P (f x)) :
    ∀ {l : List α}, lastSat p P l → lastSat p P (updateLast p f l) := by
  intro l hl
  induction l with
  | nil => trivial
  | cons a l ih =>
    by_cases ha : l.any p = true
    · have hu : (updateLast p f l).any p = true := by
        rw [any_updateLast p (fun x hx => hpf x)]; exact ha
      simp only [lastSat, if_pos ha] at hl
      simp only [updateLast, if_pos ha, lastSat, if_pos hu]
      exact ih hl
    · simp only [lastSat, if_neg ha] at hl
      by_cases hpa : p a = true
      · simp only [updateLast, if_neg ha, if_pos hpa, lastSat, if_neg ha]
        exact fun _ => hmono a hpa (hl hpa)
      · simp only [updateLast, if_neg ha, if_neg hpa, lastSat, if_neg ha]
        exact hl

theorem lastSat_updateLast_other {α : Type} {p q : α → Bool} {f : α → α}
    {Q : α → Prop} (hdisj : ∀ x, p x = true → q x = false)
    (hqf : ∀ x, q (f x) = q x) :
    ∀ {l : List α}, lastSat q Q l → lastSat q Q (updateLast p f l) := by
  intro l hl
  induction l with
  | nil => trivial
  | cons a l ih =>
    by_cases ha : l.any p = true
    · have hu : (updateLast p f l).any q = l.any q :=
        any_updateLast q (fun x _ => hqf x) l
      by_cases haq : l.any q = true
      · simp only [lastSat, if_pos haq] at hl
        simp only [updateLast, if_pos ha, lastSat, hu, if_pos haq]
        exact ih hl
      · simp only [lastSat, if_neg haq] at hl
        simp only [updateLast, if_pos ha, lastSat, hu, if_neg haq]
        exact hl
    · by_cases hpa : p a = true
      · by_cases haq : l.any q = true
        · simp only [lastSat, if_pos haq] at hl
          simp only [updateLast, if_neg ha, if_pos hpa, lastSat, if_pos haq]
          exact hl
        · simp only [updateLast, if_neg ha, if_pos hpa, lastSat, if_neg haq]
          intro hqfa
          rw [hqf a] at hqfa
          rw [hdisj a hpa] at hqfa
          exact absurd hqfa (by simp)
      · simp only [updateLast, if_neg ha, if_neg hpa]
        exact hl

theorem any_append_one {α : Type} (p : α → Bool) (l : List α) (x : α) :
    (l ++ [x]).any p = (l.any p || p x) := by
  simp [List.any_append]

theorem lastSat_append_not {α : Type} {p : α → Bool} {P : α → Prop}
    {x : α} (hx : p x = false) :
    ∀ {l : List α}, lastSat p P (l ++ [x]) ↔ lastSat p P l := by
  intro l
  induction l with
  | nil =>
    simp only [List.nil_append, lastSat, List.any_nil, Bool.false_eq_true, if_false]
    constructor
    · intro _; trivial
    · intro _ hpx; rw [hx] at hpx; exact absurd hpx (by simp)
  | cons a l ih =>
    have hany : ((l ++ [x]).any p) = l.any p := by
      rw [any_append_one, hx, Bool.or_false]
    by_cases ha : l.any p = true
    · simp only [List.cons_append, lastSat, List.append_eq, hany, ha, if_true]
      exact ih
    · simp only [List.cons_append, lastSat, List.append_eq, hany, ha,
        Bool.false_eq_true, if_false]

theorem lastSat_append_self {α : Type} {p : α → Bool} {P : α → Prop}
    {x : α} (hx : p x = true) (hP : P x) :
    ∀ (l : List α), lastSat p P (l ++ [x]) := by
  intro l
  induction l with
  | nil =>
    simp only [List.nil_append, lastSat, List.any_nil, Bool.false_eq_true, if_false]
    exact fun _ => hP
  | cons a l ih =>
    have hany : ((l ++ [x]).any p) = true := by
      rw [any_append_one, hx, Bool.or_true]
    simp only [List.cons_append, lastSat, List.append_eq, hany, if_true]
    exact ih

/-! ## Data model of the extraction accumulator

Typed image of the `extracted_info` dictionary produced by the extraction
prompt of `travel_workflow.py` and consumed by `_merge_extracted_info`,
`check_info_quality` and `_create_fallback_plan`.  A string field read by
the code with `d.get(k, "")` (or whose truthiness is tested) is a `String`
with `""` standing for absent. -/

structure DayPlanRec where
  day : Option Nat
  theme : Option String
  places : List String
deriving DecidableEq, Repr

structure Route where
  source : String
  days : Nat
  description : String
  daily_plan : List DayPlanRec
deriving DecidableEq, Repr

structure Place where
  name : String
  open_time : String
  closed_day : String
  ticket : String
  duration : String
  tips : String
  need_booking : String
deriving DecidableEq, Repr

/-- Transportation record; `localTips` models the `"local"` key (a Lean
keyword).  The code also tolerates a bare string under `"local"`; the model
fixes the schema's list-of-strings shape. -/
structure TransInfo where
  arrival : String
  localTips : List String
deriving DecidableEq, Repr

structure Area where
  area : String
  reasons : List String
  nearby : List String
  transport : String
  price_range : String
deriving DecidableEq, Repr

structure Accom where
  recommended_areas : List Area
  tips : List String
deriving DecidableEq, Repr

structure FoodItem where
  name : String
  description : String
deriving DecidableEq, Repr

/-- Restaurant record; `rtype` models the `"type"` key (a Lean keyword). -/
structure Restaurant where
  name : String
  rtype : String
  specialty : String
deriving DecidableEq, Repr

structure Street where
  name : String
  location : String
  features : String
deriving DecidableEq, Repr

structure Food where
  specialties : List FoodItem
  restaurants : List Restaurant
  streets : List Street
deriving DecidableEq, Repr

/-- Avoid-list entry; the code also tolerates bare strings, keyed by the
string itself — the model fixes the schema's `{item, reason}` shape. -/
structure AvoidItem where
  item : String
  reason : String
deriving DecidableEq, Repr

structure Extracted where
  routes : List Route
  places : List Place
  transportation : Option TransInfo
  accommodation : Option Accom
  food : Option Food
  avoid : List AvoidItem
  tips : List String
deriving DecidableEq, Repr

def emptyExtracted : Extracted := ⟨[], [], none, none, none, [], []⟩

/-! ## The accumulator merge `_merge_extracted_info` -/

/-- One field of the backfill loop `for k, v in place.items(): if v and not
existing.get(k): existing[k] = v`. -/
def fillField (old new : String) : String :=
  if new ≠ "" ∧ old = "" then new else old

def fillPlace (old new : Place) : Place where
  name := fillField old.name new.name
  open_time := fillField old.open_time new.open_time
  closed_day := fillField old.closed_day new.closed_day
  ticket := fillField old.ticket new.ticket
  duration := fillField old.duration new.duration
  tips := fillField old.tips new.tips
  need_booking := fillField old.need_booking new.need_booking

/-- One step of the dict comprehension `{p.get("name"): p for p in places}`:
a repeated name replaces the value kept at its first-insertion position. -/
def insertPlaceRaw (m : List Place) (p : Place) : List Place :=
  if m.any (fun q => q.name == p.name) then
    m.map (fun q => if q.name == p.name then p else q)
  else m ++ [p]

def buildPlaceMap (l : List Place) : List Place := l.foldl insertPlaceRaw []

/-- The body of the `for place in new.get("places", [])` loop. -/
def mergePlaceInto (m : List Place) (p : Place) : List Place :=
  if p.name = "" then m
  else if m.any (fun q => q.name == p.name) then
    m.map (fun q => if q.name == p.name then fillPlace q p else q)
  else m ++ [p]

def mergePlaces (ex news : List Place) : List Place :=
  news.foldl mergePlaceInto (buildPlaceMap ex)

/-- The transportation merge: keep the longer arrival description, union the
local-transit tips. -/
def mergeTrans (old new : Option TransInfo) : Option TransInfo :=
  match new with
  | none => old
  | some t =>
    match old with
    | some m =>
      let arrival :=
        if t.arrival ≠ "" ∧ m.arrival.length < t.arrival.length then t.arrival
        else m.arrival
      let lt :=
        if t.localTips ≠ [] then pyUnion m.localTips t.localTips
        else m.localTips
      some ⟨arrival, lt⟩
    | none => some t

/-- Merging one new area record into the matched existing area: union the
reasons and nearby lists, backfill transport and price range. -/
def updArea (x na : Area) : Area :=
  { x with
    reasons := pyUnion x.reasons na.reasons
    nearby := pyUnion x.nearby na.nearby
    transport :=
      if na.transport ≠ "" ∧ x.transport = "" then na.transport
      else x.transport
    price_range :=
      if na.price_range ≠ "" ∧ x.price_range = "" then na.price_range
      else x.price_range }

/-- The body of the `for area in new_areas` loop.  `existing_area_map` keeps
the last dict per area name and matched updates mutate it in place, so the
functional reading updates the last matching list element. -/
def mergeOneArea (areas : List Area) (na : Area) : List Area :=
  if na.area = "" then areas
  else if areas.any (fun x => x.area == na.area) then
    updateLast (fun x => x.area == na.area) (fun x => updArea x na) areas
  else areas ++ [na]

def mergeAccom (old new : Option Accom) : Option Accom :=
  match new with
  | none => old
  | some nacc =>
    let base := old.getD ⟨[], []⟩
    some ⟨nacc.recommended_areas.foldl mergeOneArea base.recommended_areas,
          pyUnion base.tips nacc.tips⟩

def mergeFood (old new : Option Food) : Option Food :=
  match new with
  | none => old
  | some nf =>
    let base := old.getD ⟨[], [], []⟩
    some
      ⟨addKeyed (fun s : FoodItem => s.name) (fun s => s.name != "")
          base.specialties (base.specialties.map (fun s => s.name))
          nf.specialties,
        addKeyed (fun r : Restaurant => r.name) (fun r => r.name != "")
          base.restaurants
          ((base.restaurants.filter (fun r => r.name != "")).map
            (fun r => r.name))
          nf.restaurants,
        addKeyed (fun s : Street => s.name) (fun s => s.name != "")
          base.streets (base.streets.map (fun s => s.name)) nf.streets⟩

/-- Transcription of `_merge_extracted_info` (travel_workflow.py 863-1065).
The `None` guards at the top of the Python function are handled by the
callers of this model, which always pass a value (`emptyExtracted` for a
missing accumulator). -/
def mergeExtracted (existing new : Extracted) : Extracted where
  routes :=
    addKeyed (fun r : Route => (r.source, r.days)) (fun _ => true)
      existing.routes (existing.routes.map (fun r => (r.source, r.days)))
      new.routes
  places := mergePlaces existing.places new.places
  transportation := mergeTrans existing.transportation new.transportation
  accommodation := mergeAccom existing.accommodation new.accommodation
  food := mergeFood existing.food new.food
  avoid :=
    addKeyed (fun a : AvoidItem => a.item) (fun a => a.item != "")
      existing.avoid (existing.avoid.map (fun a => a.item)) new.avoid
  tips := pyUnion existing.tips new.tips

/-! ## Idempotence of the place merge -/

theorem mapCongrMem {α β : Type} {f g : α → β} :
    ∀ {l : List α}, (∀ a ∈ l, f a = g a) → l.map f = l.map g := by
  intro l h
  induction l with
  | nil => rfl
  | cons a l ih =>
    simp only [List.map_cons]
    rw [h a (List.mem_cons_self a l), ih fun b hb => h b (List.mem_cons_of_mem _ hb)]

theorem map_eq_self {α : Type} {f : α → α} :
    ∀ {l : List α}, (∀ a ∈ l, f a = a) → l.map f = l := by
  intro l h
  rw [mapCongrMem (g := id) h, List.map_id]

theorem nodup_append_singleton {α : Type} {l : List α} {a : α}
    (ha : a ∉ l) (hl : l.Nodup) : (l ++ [a]).Nodup := by
  simp [List.nodup_append, hl, ha, List.disjoint_singleton]

/-- Saturation of an existing place record w.r.t. a payload record: every
detail field the payload fills is already non-empty. -/
def SatPlace (q p : Place) : Prop :=
  (p.open_time ≠ "" → q.open_time ≠ "") ∧
  (p.closed_day ≠ "" → q.closed_day ≠ "") ∧
  (p.ticket ≠ "" → q.ticket ≠ "") ∧
  (p.duration ≠ "" → q.duration ≠ "") ∧
  (p.tips ≠ "" → q.tips ≠ "") ∧
  (p.need_booking ≠ "" → q.need_booking ≠ "")

theorem satPlace_self (p : Place) : SatPlace p p :=
  ⟨id, id, id, id, id, id⟩

theorem fillField_ne {old new : String} (h : new ≠ "") :
    fillField old new ≠ "" := by
  unfold fillField
  by_cases hc : new ≠ "" ∧ old = ""
  · rw [if_pos hc]; exact h
  · rw [if_neg hc]
    rcases not_and_or.1 hc with h1 | h1
    · exact absurd h h1
    · exact h1

theorem fillField_mono {old new : String} (h : old ≠ "") :
    fillField old new ≠ "" := by
  unfold fillField
  rw [if_neg]
  · exact h
  · rintro ⟨_, h2⟩; exact h h2

theorem fillField_of_ne {old new : String} (h : old ≠ "") :
    fillField old new = old := by
  unfold fillField
  rw [if_neg]
  rintro ⟨_, h2⟩; exact h h2

theorem fillField_eq_self {old new : String} (h : new ≠ "" → old ≠ "") :
    fillField old new = old := by
  by_cases hn : new = ""
  · unfold fillField
    rw [if_neg]
    rintro ⟨h1, _⟩; exact h1 hn
  · exact fillField_of_ne (h hn)

theorem fillPlace_name {q p : Place} (h : q.name ≠ "") :
    (fillPlace q p).name = q.name :=
  fillField_of_ne h

theorem fillPlace_sat (q p : Place) : SatPlace (fillPlace q p) p :=
  ⟨fun h => fillField_ne h, fun h => fillField_ne h, fun h => fillField_ne h,
   fun h => fillField_ne h, fun h => fillField_ne h, fun h => fillField_ne h⟩

theorem fillPlace_sat_mono {q p : Place} (y : Place) (h : SatPlace q p) :
    SatPlace (fillPlace q y) p := by
  obtain ⟨h1, h2, h3, h4, h5, h6⟩ := h
  exact ⟨fun hh => fillField_mono (h1 hh), fun hh => fillField_mono (h2 hh),
    fun hh => fillField_mono (h3 hh), fun hh => fillField_mono (h4 hh),
    fun hh => fillField_mono (h5 hh), fun hh => fillField_mono (h6 hh)⟩

theorem fillPlace_eq_self {q p : Place} (hname : p.name ≠ "" → q.name ≠ "")
    (hsat : SatPlace q p) : fillPlace q p = q := by
  obtain ⟨h1, h2, h3, h4, h5, h6⟩ := hsat
  unfold fillPlace
  cases q
  simp only [Place.mk.injEq]
  exact ⟨fillField_eq_self hname, fillField_eq_self h1, fillField_eq_self h2,
    fillField_eq_self h3, fillField_eq_self h4, fillField_eq_self h5,
    fillField_eq_self h6⟩

theorem any_name_iff {l : List Place} {s : String} :
    l.any (fun q => q.name == s) = true ↔ ∃ q ∈ l, q.name = s := by
  simp [List.any_eq_true]

/-- Invariant of the place-merge fold: the payload record `p` has a matching
entry, and every matching entry is saturated w.r.t. `p`. -/
def PlaceInv (l : List Place) (p : Place) : Prop :=
  p.name ≠ "" → (l.any (fun q => q.name == p.name) = true) ∧
    ∀ q ∈ l, q.name = p.name → SatPlace q p

theorem placeInv_establish (m : List Place) (p : Place) :
    PlaceInv (mergePlaceInto m p) p := by
  intro hp
  unfold mergePlaceInto
  rw [if_neg hp]
  by_cases hm : m.any (fun q => q.name == p.name) = true
  · rw [if_pos hm]
    obtain ⟨q0, hq0, hq0n⟩ := any_name_iff.1 hm
    constructor
    · refine any_name_iff.2 ⟨fillPlace q0 p, ?_, ?_⟩
      · refine List.mem_map.2 ⟨q0, hq0, ?_⟩
        rw [if_pos (by simp [hq0n])]
      · rw [fillPlace_name (by rw [hq0n]; exact hp), hq0n]
    · intro q hq hqn
      obtain ⟨q1, hq1, rfl⟩ := List.mem_map.1 hq
      by_cases h1 : (q1.name == p.name) = true
      · rw [if_pos h1]
        exact fillPlace_sat q1 p
      · rw [if_neg h1] at hqn ⊢
        exact absurd (by simp [hqn]) h1
  · rw [if_neg hm]
    constructor
    · rw [any_append_one]
      simp
    · intro q hq hqn
      rcases List.mem_append.1 hq with h1 | h1
      · exact absurd (any_name_iff.2 ⟨q, h1, hqn⟩) hm
      · rw [List.mem_singleton.1 h1]
        exact satPlace_self p

theorem placeInv_preserve (m : List Place) (p y : Place)
    (h : PlaceInv m p) : PlaceInv (mergePlaceInto m y) p := by
  intro hp
  obtain ⟨hany, hsat⟩ := h hp
  unfold mergePlaceInto
  by_cases hy : y.name = ""
  · rw [if_pos hy]; exact ⟨hany, hsat⟩
  rw [if_neg hy]
  by_cases hm : m.any (fun q => q.name == y.name) = true
  · rw [if_pos hm]
    have hnamepres : ∀ q ∈ m,
        ((if (q.name == y.name) = true then fillPlace q y else q)).name
          = q.name := by
      intro q hq
      by_cases h1 : (q.name == y.name) = true
      · rw [if_pos h1]
        exact fillPlace_name (by rw [beq_iff_eq.1 h1]; exact hy)
      · rw [if_neg h1]
    constructor
    · obtain ⟨q0, hq0, hq0n⟩ := any_name_iff.1 hany
      refine any_name_iff.2 ⟨_, List.mem_map.2 ⟨q0, hq0, rfl⟩, ?_⟩
      rw [hnamepres q0 hq0, hq0n]
    · intro q hq hqn
      obtain ⟨q1, hq1, rfl⟩ := List.mem_map.1 hq
      rw [hnamepres q1 hq1] at hqn
      by_cases h1 : (q1.name == y.name) = true
      · rw [if_pos h1]
        exact fillPlace_sat_mono y (hsat q1 hq1 hqn)
      · rw [if_neg h1]
        exact hsat q1 hq1 hqn
  · rw [if_neg hm]
    constructor
    · rw [any_append_one, hany, Bool.true_or]
    · intro q hq hqn
      rcases List.mem_append.1 hq with h1 | h1
      · exact hsat q h1 hqn
      · rw [List.mem_singleton.1 h1] at hqn ⊢
        obtain ⟨q0, hq0, hq0n⟩ := any_name_iff.1 hany
        exact absurd (any_name_iff.2 ⟨q0, hq0, by rw [hq0n, ← hqn]⟩) hm

theorem placeInv_skip (R : List Place) (p : Place) (h : PlaceInv R p) :
    mergePlaceInto R p = R := by
  unfold mergePlaceInto
  by_cases hp : p.name = ""
  · rw [if_pos hp]
  · obtain ⟨hany, hsat⟩ := h hp
    rw [if_neg hp, if_pos hany]
    apply map_eq_self
    intro q hq
    by_cases h1 : (q.name == p.name) = true
    · rw [if_pos h1]
      refine fillPlace_eq_self ?_ (hsat q hq (beq_iff_eq.1 h1))
      intro _
      rw [beq_iff_eq.1 h1]
      exact hp
    · rw [if_neg h1]

theorem placeInv_foldl (news : List Place) :
    ∀ (m : List Place) (p : Place), PlaceInv m p →
      PlaceInv (news.foldl mergePlaceInto m) p := by
  induction news with
  | nil => intro m p h; exact h
  | cons x rest ih =>
    intro m p h
    exact ih _ p (placeInv_preserve m p x h)

theorem placeInv_after_fold (news : List Place) :
    ∀ (m : List Place) (p : Place), p ∈ news →
      PlaceInv (news.foldl mergePlaceInto m) p := by
  induction news with
  | nil => intro m p h; exact absurd h (List.not_mem_nil p)
  | cons x rest ih =>
    intro m p h
    rcases List.mem_cons.1 h with rfl | h1
    · exact placeInv_foldl rest _ p (placeInv_establish m p)
    · exact ih _ p h1

theorem foldl_mergePlaceInto_id (news : List Place) :
    ∀ (m : List Place), (∀ p ∈ news, PlaceInv m p) →
      news.foldl mergePlaceInto m = m := by
  induction news with
  | nil => intro m _; rfl
  | cons x rest ih =>
    intro m h
    simp only [List.foldl_cons]
    rw [placeInv_skip m x (h x (List.mem_cons_self x rest))]
    exact ih m fun p hp => h p (List.mem_cons_of_mem _ hp)

def namesOf (l : List Place) : List String := l.map (fun p => p.name)

theorem mem_namesOf {l : List Place} {s : String} :
    s ∈ namesOf l ↔ ∃ q ∈ l, q.name = s := by
  simp [namesOf, List.mem_map, eq_comm]

theorem namesOf_insertPlaceRaw_nodup {m : List Place} {p : Place}
    (h : (namesOf m).Nodup) : (namesOf (insertPlaceRaw m p)).Nodup := by
  unfold insertPlaceRaw
  by_cases hm : m.any (fun q => q.name == p.name) = true
  · rw [if_pos hm]
    have : namesOf (m.map fun q => if q.name == p.name then p else q)
        = namesOf m := by
      unfold namesOf
      rw [List.map_map]
      refine mapCongrMem ?_
      intro q hq
      by_cases h1 : (q.name == p.name) = true
      · simp only [Function.comp_apply, if_pos h1]
        exact (beq_iff_eq.1 h1).symm
      · simp only [Function.comp_apply, if_neg h1]
    rw [this]
    exact h
  · rw [if_neg hm]
    unfold namesOf
    rw [List.map_append]
    refine nodup_append_singleton ?_ h
    intro hc
    obtain ⟨q, hq, hqn⟩ := mem_namesOf.1 hc
    exact hm (any_name_iff.2 ⟨q, hq, hqn⟩)

theorem buildPlaceMap_nodup (l : List Place) :
    (namesOf (buildPlaceMap l)).Nodup := by
  unfold buildPlaceMap
  have key : ∀ (l acc : List Place), (namesOf acc).Nodup →
      (namesOf (l.foldl insertPlaceRaw acc)).Nodup := by
    intro l
    induction l with
    | nil => intro acc h; exact h
    | cons x rest ih =>
      intro acc h
      exact ih _ (namesOf_insertPlaceRaw_nodup h)
  exact key l [] (by simp [namesOf])

theorem namesOf_mergePlaceInto_nodup {m : List Place} {p : Place}
    (h : (namesOf m).Nodup) : (namesOf (mergePlaceInto m p)).Nodup := by
  unfold mergePlaceInto
  by_cases hp : p.name = ""
  · rw [if_pos hp]; exact h
  rw [if_neg hp]
  by_cases hm : m.any (fun q => q.name == p.name) = true
  · rw [if_pos hm]
    have : namesOf (m.map fun q => if (q.name == p.name) = true
        then fillPlace q p else q) = namesOf m := by
      unfold namesOf
      rw [List.map_map]
      refine mapCongrMem ?_
      intro q hq
      by_cases h1 : (q.name == p.name) = true
      · simp only [Function.comp_apply, if_pos h1]
        exact fillPlace_name (by rw [beq_iff_eq.1 h1]; exact hp)
      · simp only [Function.comp_apply, if_neg h1]
    rw [this]
    exact h
  · rw [if_neg hm]
    unfold namesOf
    rw [List.map_append]
    refine nodup_append_singleton ?_ h
    intro hc
    obtain ⟨q, hq, hqn⟩ := mem_namesOf.1 hc
    exact hm (any_name_iff.2 ⟨q, hq, hqn⟩)

theorem mergePlaces_nodup (ex news : List Place) :
    (namesOf (mergePlaces ex news)).Nodup := by
  unfold mergePlaces
  have key : ∀ (l m : List Place), (namesOf m).Nodup →
      (namesOf (l.foldl mergePlaceInto m)).Nodup := by
    intro l
    induction l with
    | nil => intro m h; exact h
    | cons x rest ih =>
      intro m h
      exact ih _ (namesOf_mergePlaceInto_nodup h)
  exact key news _ (buildPlaceMap_nodup ex)

theorem buildPlaceMap_eq_self {l : List Place}
    (h : (namesOf l).Nodup) : buildPlaceMap l = l := by
  unfold buildPlaceMap
  have key : ∀ (l acc : List Place), (namesOf acc ++ namesOf l).Nodup →
      l.foldl insertPlaceRaw acc = acc ++ l := by
    intro l
    induction l with
    | nil => intro acc _; simp
    | cons x rest ih =>
      intro acc hacc
      have hx : x.name ∉ namesOf acc := by
        intro hc
        have : (namesOf acc).Disjoint (namesOf (x :: rest)) :=
          (List.nodup_append.1 hacc).2.2
        exact this hc (by simp [namesOf])
      have hnoany : ¬ acc.any (fun q => q.name == x.name) = true := by
        intro hc
        obtain ⟨q, hq, hqn⟩ := any_name_iff.1 hc
        exact hx (mem_namesOf.2 ⟨q, hq, hqn⟩)
      simp only [List.foldl_cons]
      rw [show insertPlaceRaw acc x = acc ++ [x] from by
        unfold insertPlaceRaw; rw [if_neg hnoany]]
      have harr : (namesOf (acc ++ [x]) ++ namesOf rest).Nodup := by
        unfold namesOf at hacc ⊢
        simpa [List.append_assoc] using hacc
      rw [ih (acc ++ [x]) harr]
      simp
  have := key l []
  simp only [List.nil_append] at this
  exact this (by simpa [namesOf] using h)

theorem mergePlaces_idem (ex news : List Place) :
    mergePlaces (mergePlaces ex news) news = mergePlaces ex news := by
  show news.foldl mergePlaceInto (buildPlaceMap (mergePlaces ex news))
      = mergePlaces ex news
  rw [buildPlaceMap_eq_self (mergePlaces_nodup ex news)]
  refine foldl_mergePlaceInto_id news _ ?_
  intro p hp
  exact placeInv_after_fold news _ p hp

/-! ## Idempotence of the accommodation-area merge -/

/-- Saturation of an existing area record w.r.t. a payload record: its union
lists already contain the payload's entries and are duplicate-free, and
every backfillable field the payload provides is already non-empty. -/
def SatArea (x a : Area) : Prop :=
  x.reasons.Nodup ∧ (∀ r ∈ a.reasons, r ∈ x.reasons) ∧
  x.nearby.Nodup ∧ (∀ r ∈ a.nearby, r ∈ x.nearby) ∧
  (a.transport ≠ "" → x.transport ≠ "") ∧
  (a.price_range ≠ "" → x.price_range ≠ "")

theorem updArea_area (x na : Area) : (updArea x na).area = x.area := rfl

theorem updArea_sat (x na : Area) : SatArea (updArea x na) na := by
  refine ⟨pyUnion_nodup _ _, fun r hr => mem_pyUnion.2 (Or.inr hr),
    pyUnion_nodup _ _, fun r hr => mem_pyUnion.2 (Or.inr hr), ?_, ?_⟩
  · intro h
    show (if na.transport ≠ "" ∧ x.transport = "" then na.transport
      else x.transport) ≠ ""
    by_cases hc : na.transport ≠ "" ∧ x.transport = ""
    · rw [if_pos hc]; exact h
    · rw [if_neg hc]
      rcases not_and_or.1 hc with h1 | h1
      · exact absurd h h1
      · exact h1
  · intro h
    show (if na.price_range ≠ "" ∧ x.price_range = "" then na.price_range
      else x.price_range) ≠ ""
    by_cases hc : na.price_range ≠ "" ∧ x.price_range = ""
    · rw [if_pos hc]; exact h
    · rw [if_neg hc]
      rcases not_and_or.1 hc with h1 | h1
      · exact absurd h h1
      · exact h1

theorem updArea_mono {x a : Area} (b : Area) (h : SatArea x a) :
    SatArea (updArea x b) a := by
  obtain ⟨h1, h2, h3, h4, h5, h6⟩ := h
  refine ⟨pyUnion_nodup _ _, fun r hr => mem_pyUnion.2 (Or.inl (h2 r hr)),
    pyUnion_nodup _ _, fun r hr => mem_pyUnion.2 (Or.inl (h4 r hr)), ?_, ?_⟩
  · intro hh
    show (if b.transport ≠ "" ∧ x.transport = "" then b.transport
      else x.transport) ≠ ""
    rw [if_neg]
    · exact h5 hh
    · rintro ⟨_, hc⟩; exact h5 hh hc
  · intro hh
    show (if b.price_range ≠ "" ∧ x.price_range = "" then b.price_range
      else x.price_range) ≠ ""
    rw [if_neg]
    · exact h6 hh
    · rintro ⟨_, hc⟩; exact h6 hh hc

theorem updArea_eq_self {x a : Area} (h : SatArea x a) : updArea x a = x := by
  obtain ⟨h1, h2, h3, h4, h5, h6⟩ := h
  unfold updArea
  cases x
  simp only [Area.mk.injEq, true_and]
  refine ⟨pyUnion_eq_self h1 h2, pyUnion_eq_self h3 h4, ?_, ?_⟩
  · rw [if_neg]
    rintro ⟨ha, hc⟩
    exact h5 ha hc
  · rw [if_neg]
    rintro ⟨ha, hc⟩
    exact h6 ha hc

theorem any_area_iff {l : List Area} {s : String} :
    l.any (fun x => x.area == s) = true ↔ ∃ x ∈ l, x.area = s := by
  simp [List.any_eq_true]

/-- Invariant of the area-merge fold: the payload area `a` has a matching
entry and the last matching entry is saturated w.r.t. `a`. -/
def AreaInv (l : List Area) (a : Area) : Prop :=
  a.area ≠ "" → (l.any (fun x => x.area == a.area) = true) ∧
    lastSat (fun x => x.area == a.area) (fun x => SatArea x a) l

theorem areaInv_establish (l : List Area) (a : Area)
    (hr : a.reasons.Nodup) (hn : a.nearby.Nodup) :
    AreaInv (mergeOneArea l a) a := by
  intro ha
  unfold mergeOneArea
  rw [if_neg ha]
  by_cases hm : l.any (fun x => x.area == a.area) = true
  · rw [if_pos hm]
    constructor
    · rw [any_updateLast _ (fun x _ => by rw [updArea_area])]
      exact hm
    · exact lastSat_updateLast_establish
        (fun x => by simp [updArea_area])
        (fun x _ => updArea_sat x a) hm
  · rw [if_neg hm]
    constructor
    · rw [any_append_one]
      simp
    · refine lastSat_append_self (by simp) ?_ l
      exact ⟨hr, fun r h => h, hn, fun r h => h, fun h => h, fun h => h⟩

theorem areaInv_preserve (l : List Area) (a b : Area)
    (h : AreaInv l a) : AreaInv (mergeOneArea l b) a := by
  intro ha
  obtain ⟨hany, hlast⟩ := h ha
  unfold mergeOneArea
  by_cases hb : b.area = ""
  · rw [if_pos hb]; exact ⟨hany, hlast⟩
  rw [if_neg hb]
  by_cases hm : l.any (fun x => x.area == b.area) = true
  · rw [if_pos hm]
    by_cases hab : b.area = a.area
    · have hpq : (fun x : Area => x.area == b.area)
          = (fun x : Area => x.area == a.area) := by
        funext x; rw [hab]
      rw [hpq]
      constructor
      · rw [any_updateLast _ (fun x _ => by rw [updArea_area])]
        exact hany
      · have hmono : ∀ x : Area, (x.area == a.area) = true →
            SatArea x a → SatArea (updArea x b) a :=
          fun x _ hs => updArea_mono b hs
        have hpf : ∀ x : Area,
            ((updArea x b).area == a.area) = (x.area == a.area) := by
          intro x; rw [updArea_area]
        exact lastSat_updateLast_mono hpf hmono hlast
    · constructor
      · rw [any_updateLast _ (fun x _ => by rw [updArea_area])]
        exact hany
      · refine lastSat_updateLast_other ?_ (fun x => by simp [updArea_area]) hlast
        intro x hx
        rw [beq_iff_eq.1 hx]
        simp only [beq_eq_false_iff_ne, ne_eq]
        exact hab
  · rw [if_neg hm]
    have hba : b.area ≠ a.area := by
      intro hc
      obtain ⟨x, hx, hxa⟩ := any_area_iff.1 hany
      exact hm (any_area_iff.2 ⟨x, hx, by rw [hxa, hc]⟩)
    constructor
    · rw [any_append_one, hany, Bool.true_or]
    · rw [lastSat_append_not (by simp [hba])]
      exact hlast

theorem areaInv_skip (l : List Area) (a : Area) (h : AreaInv l a) :
    mergeOneArea l a = l := by
  unfold mergeOneArea
  by_cases ha : a.area = ""
  · rw [if_pos ha]
  · obtain ⟨hany, hlast⟩ := h ha
    rw [if_neg ha, if_pos hany]
    refine updateLast_eq_self ?_
    exact lastSat_mono (fun x _ hs => updArea_eq_self hs) hlast

theorem areaInv_foldl (news : List Area) :
    ∀ (l : List Area) (a : Area), AreaInv l a →
      AreaInv (news.foldl mergeOneArea l) a := by
  induction news with
  | nil => intro l a h; exact h
  | cons x rest ih =>
    intro l a h
    exact ih _ a (areaInv_preserve l a x h)

theorem areaInv_after_fold (news : List Area) :
    ∀ (l : List Area) (a : Area), a ∈ news →
      a.reasons.Nodup → a.nearby.Nodup →
      AreaInv (news.foldl mergeOneArea l) a := by
  induction news with
  | nil => intro l a h; exact absurd h (List.not_mem_nil a)
  | cons x rest ih =>
    intro l a h hr hn
    rcases List.mem_cons.1 h with rfl | h1
    · exact areaInv_foldl rest _ a (areaInv_establish l a hr hn)
    · exact ih _ a h1 hr hn

theorem foldl_mergeOneArea_id (news : List Area) :
    ∀ (l : List Area), (∀ a ∈ news, AreaInv l a) →
      news.foldl mergeOneArea l = l := by
  induction news with
  | nil => intro l _; rfl
  | cons x rest ih =>
    intro l h
    simp only [List.foldl_cons]
    rw [areaInv_skip l x (h x (List.mem_cons_self x rest))]
    exact ih l fun a hp => h a (List.mem_cons_of_mem _ hp)

theorem mergeAreas_idem (ex news : List Area)
    (h : ∀ a ∈ news, a.reasons.Nodup ∧ a.nearby.Nodup) :
    news.foldl mergeOneArea (news.foldl mergeOneArea ex) =
      news.foldl mergeOneArea ex := by
  refine foldl_mergeOneArea_id news _ ?_
  intro a ha
  exact areaInv_after_fold news ex a ha (h a ha).1 (h a ha).2

/-! ## Idempotence of the remaining merge fields -/

theorem mergeTrans_idem (old : Option TransInfo) (t : TransInfo)
    (h : t.localTips.Nodup) :
    mergeTrans (mergeTrans old (some t)) (some t)
      = mergeTrans old (some t) := by
  cases old with
  | none =>
    show mergeTrans (some t) (some t) = some t
    unfold mergeTrans
    simp only
    have harr : (if t.arrival ≠ "" ∧ t.arrival.length < t.arrival.length
        then t.arrival else t.arrival) = t.arrival := by
      rw [if_neg]; rintro ⟨_, hc⟩; exact absurd hc (lt_irrefl _)
    have hlt : (if t.localTips ≠ [] then pyUnion t.localTips t.localTips
        else t.localTips) = t.localTips := by
      by_cases hc : t.localTips = []
      · rw [if_neg (by simp [hc])]
      · rw [if_pos hc]
        exact pyUnion_eq_self h (fun a ha => ha)
    rw [harr, hlt]
  | some m =>
    show mergeTrans (some ⟨_, _⟩) (some t) = _
    unfold mergeTrans
    simp only
    congr 1
    have harr2 : (if t.arrival ≠ "" ∧
        (if t.arrival ≠ "" ∧ m.arrival.length < t.arrival.length
          then t.arrival else m.arrival).length < t.arrival.length
        then t.arrival
        else (if t.arrival ≠ "" ∧ m.arrival.length < t.arrival.length
          then t.arrival else m.arrival))
        = (if t.arrival ≠ "" ∧ m.arrival.length < t.arrival.length
          then t.arrival else m.arrival) := by
      by_cases hc : t.arrival ≠ "" ∧ m.arrival.length < t.arrival.length
      · rw [if_pos hc, if_neg]
        rintro ⟨_, hc2⟩; exact absurd hc2 (lt_irrefl _)
      · rw [if_neg hc, if_neg]
        rintro ⟨ha, hc2⟩
        exact hc ⟨ha, hc2⟩
    have hlt2 : (if t.localTips ≠ [] then
        pyUnion (if t.localTips ≠ []
          then pyUnion m.localTips t.localTips else m.localTips) t.localTips
        else (if t.localTips ≠ []
          then pyUnion m.localTips t.localTips else m.localTips))
        = (if t.localTips ≠ []
          then pyUnion m.localTips t.localTips else m.localTips) := by
      by_cases hc : t.localTips = []
      · rw [if_neg (by simp [hc])]
      · rw [if_pos hc, if_pos hc]
        exact pyUnion_idem _ _
    rw [harr2, hlt2]

theorem mergeAccom_idem (old : Option Accom) (na : Accom)
    (h : ∀ a ∈ na.recommended_areas, a.reasons.Nodup ∧ a.nearby.Nodup) :
    mergeAccom (mergeAccom old (some na)) (some na)
      = mergeAccom old (some na) := by
  unfold mergeAccom
  simp only [Option.getD_some]
  rw [mergeAreas_idem _ na.recommended_areas h, pyUnion_idem]

theorem mergeRoutes_idem (ex news : List Route) :
    addKeyed (fun r : Route => (r.source, r.days)) (fun _ => true)
      (addKeyed (fun r : Route => (r.source, r.days)) (fun _ => true)
        ex (ex.map (fun r => (r.source, r.days))) news)
      ((addKeyed (fun r : Route => (r.source, r.days)) (fun _ => true)
        ex (ex.map (fun r => (r.source, r.days))) news).map
          (fun r => (r.source, r.days)))
      news
    = addKeyed (fun r : Route => (r.source, r.days)) (fun _ => true)
        ex (ex.map (fun r => (r.source, r.days))) news :=
  addKeyed_idem _ _ news ex _ (fun b hb => hb) (fun b hb => hb)

theorem mergeAvoid_idem (ex news : List AvoidItem) :
    addKeyed (fun a : AvoidItem => a.item) (fun a => a.item != "")
      (addKeyed (fun a : AvoidItem => a.item) (fun a => a.item != "")
        ex (ex.map (fun a => a.item)) news)
      ((addKeyed (fun a : AvoidItem => a.item) (fun a => a.item != "")
        ex (ex.map (fun a => a.item)) news).map (fun a => a.item))
      news
    = addKeyed (fun a : AvoidItem => a.item) (fun a => a.item != "")
        ex (ex.map (fun a => a.item)) news :=
  addKeyed_idem _ _ news ex _ (fun b hb => hb) (fun b hb => hb)

theorem mergeRestaurants_idem (ex news : List Restaurant) :
    addKeyed (fun r : Restaurant => r.name) (fun r => r.name != "")
      (addKeyed (fun r : Restaurant => r.name) (fun r => r.name != "")
        ex ((ex.filter (fun r => r.name != "")).map (fun r => r.name)) news)
      (((addKeyed (fun r : Restaurant => r.name) (fun r => r.name != "")
        ex ((ex.filter (fun r => r.name != "")).map (fun r => r.name))
        news).filter (fun r => r.name != "")).map (fun r => r.name))
      news
    = addKeyed (fun r : Restaurant => r.name) (fun r => r.name != "")
        ex ((ex.filter (fun r => r.name != "")).map (fun r => r.name))
        news := by
  set R := addKeyed (fun r : Restaurant => r.name) (fun r => r.name != "")
    ex ((ex.filter (fun r => r.name != "")).map (fun r => r.name)) news with hR
  refine addKeyed_skip_all _ _ ?_
  intro n hn hg
  have hseen : ∀ b ∈ (ex.filter (fun r : Restaurant => r.name != "")).map
      (fun r => r.name), b ∈ ex.map (fun r : Restaurant => r.name) := by
    intro b hb
    obtain ⟨r, hr, rfl⟩ := List.mem_map.1 hb
    exact List.mem_map.2 ⟨r, List.mem_of_mem_filter hr, rfl⟩
  have hcov : n.name ∈ R.map (fun r => r.name) := by
    rw [hR]
    exact addKeyed_keys_covered _ _ hseen n hn hg
  obtain ⟨x, hx, hxn⟩ := List.mem_map.1 hcov
  refine List.mem_map.2 ⟨x, ?_, hxn⟩
  refine List.mem_filter.2 ⟨hx, ?_⟩
  rw [hxn]
  exact hg

theorem mergeFood_idem (old : Option Food) (nf : Food) :
    mergeFood (mergeFood old (some nf)) (some nf)
      = mergeFood old (some nf) := by
  unfold mergeFood
  simp only [Option.getD_some]
  refine congrArg some ?_
  rw [Food.mk.injEq]
  refine ⟨?_, ?_, ?_⟩
  · exact addKeyed_idem _ _ nf.specialties _ _ (fun b hb => hb) (fun b hb => hb)
  · exact mergeRestaurants_idem _ nf.restaurants
  · exact addKeyed_idem _ _ nf.streets _ _ (fun b hb => hb) (fun b hb => hb)

/-- Idempotence of the full accumulator merge, conditional on the payload's
raw-copied list fields being duplicate-free (the transportation local-tips
list, and each payload area's reasons and nearby lists): exactly the lists
that a first merge can copy into the accumulator verbatim but that a second
merge runs through a de-duplicating set union. -/
theorem mergeExtracted_idem_of (A E : Extracted)
    (ht : ∀ t, E.transportation = some t → t.localTips.Nodup)
    (hacc : ∀ acc, E.accommodation = some acc →
      ∀ a ∈ acc.recommended_areas, a.reasons.Nodup ∧ a.nearby.Nodup) :
    mergeExtracted (mergeExtracted A E) E = mergeExtracted A E := by
  unfold mergeExtracted
  dsimp only
  rw [Extracted.mk.injEq]
  refine ⟨?_, ?_, ?_, ?_, ?_, ?_, ?_⟩
  · exact mergeRoutes_idem A.routes E.routes
  · exact mergePlaces_idem A.places E.places
  · cases he : E.transportation with
    | none => rfl
    | some t => exact mergeTrans_idem A.transportation t (ht t he)
  · cases he : E.accommodation with
    | none => rfl
    | some nacc => exact mergeAccom_idem A.accommodation nacc (hacc nacc he)
  · cases he : E.food with
    | none => rfl
    | some nf => exact mergeFood_idem A.food nf
  · exact mergeAvoid_idem A.avoid E.avoid
  · exact pyUnion_idem A.tips E.tips

/-! ## The quality gate `check_info_quality` (travel_workflow.py 1128-1214) -/

def validRoutes (e : Extracted) : List Route :=
  e.routes.filter (fun r => !r.daily_plan.isEmpty)

def foodCount (e : Extracted) : Nat :=
  match e.food with
  | some f => f.specialties.length + f.restaurants.length + f.streets.length
  | none => 0

/-- The missing-information tags collected by `check_info_quality`, with the
appends in source order.  A missing `food`/`accommodation` key reads as the
empty dict in the code, which takes the same branch as the `none` case
here. -/
def computeMissing (e : Extracted) (searchCount : Nat) : List String :=
  let m0 : List String := []
  let m1 := if (validRoutes e).length < 1 then m0 ++ ["places"] else m0
  let m2 :=
    if e.places.length < 3 ∧ (validRoutes e).length < 1 then
      (if "places" ∈ m1 then m1 else m1 ++ ["places"])
    else m1
  let m3 := if foodCount e < 2 then m2 ++ ["food"] else m2
  let m4 :=
    match e.accommodation with
    | some acc =>
      if (acc.recommended_areas.filter (fun a => a.area ≠ "")).length < 1 then
        m3 ++ ["accommodation"]
      else m3
    | none => m3 ++ ["accommodation"]
  let m5 :=
    if 2 ≤ searchCount then
      match e.transportation with
      | none => m4 ++ ["transportation"]
      | some t => if t.arrival = "" then m4 ++ ["transportation"] else m4
    else m4
  m5

/-- The conditional-edge decision of `check_info_quality`: `"enough"` routes
to the plan node, `"need_more"` back to search. -/
def checkInfoQuality (searchCount maxSearches : Nat) (e : Extracted) :
    String :=
  if maxSearches ≤ searchCount then "enough"
  else if computeMissing e searchCount ≠ [] then "need_more"
  else "enough"

theorem checkInfoQuality_maxed {searchCount maxSearches : Nat}
    (e : Extracted) (h : maxSearches ≤ searchCount) :
    checkInfoQuality searchCount maxSearches e = "enough" := by
  unfold checkInfoQuality
  rw [if_pos h]

theorem checkInfoQuality_ne_enough {searchCount maxSearches : Nat}
    {e : Extracted}
    (h : checkInfoQuality searchCount maxSearches e ≠ "enough") :
    searchCount < maxSearches := by
  by_contra hc
  exact h (checkInfoQuality_maxed e (by omega))

/-! ## The orchestration loop of `create_travel_graph`
(travel_workflow.py 1728-1761): entry node `search`, unconditional edge
search→extract, conditional edge extract→{search, plan}, plan→END. -/

inductive WFNode where
  | search
  | extract
  | plan
deriving DecidableEq, Repr

/-- Node trace of a run of the compiled graph starting after `k` completed
Search→Extract cycles with accumulator `acc`.  The extraction payload merged
by the cycle after `k` completed cycles is `payload k` — an oracle, since
payload contents come from LLM calls (a parse failure contributes the empty
payload). -/
def traceFrom (maxS : Nat) (payload : Nat → Extracted) (k : Nat)
    (acc : Extracted) : List WFNode :=
  let acc' := mergeExtracted acc (payload k)
  if h : checkInfoQuality (k + 1) maxS acc' = "enough" then
    [WFNode.search, WFNode.extract, WFNode.plan]
  else
    [WFNode.search, WFNode.extract] ++ traceFrom maxS payload (k + 1) acc'
termination_by maxS - k
decreasing_by
  have hk : k + 1 < maxS := checkInfoQuality_ne_enough h
  omega

/-- The trace of a whole run: round count starts at 0, accumulator starts
empty. -/
def workflowTrace (maxS : Nat) (payload : Nat → Extracted) : List WFNode :=
  traceFrom maxS payload 0 emptyExtracted

def countNode (n : WFNode) (l : List WFNode) : Nat := l.count n

theorem traceFrom_plan_count (maxS : Nat) (payload : Nat → Extracted) :
    ∀ (n k : Nat) (acc : Extracted), maxS - k ≤ n →
      countNode WFNode.plan (traceFrom maxS payload k acc) = 1 := by
  intro n
  induction n with
  | zero =>
    intro k acc hn
    rw [traceFrom, dif_pos (checkInfoQuality_maxed _ (by omega))]
    decide
  | succ n ih =>
    intro k acc hn
    rw [traceFrom]
    by_cases h : checkInfoQuality (k + 1) maxS
        (mergeExtracted acc (payload k)) = "enough"
    · rw [dif_pos h]
      decide
    · rw [dif_neg h]
      have hk : k + 1 < maxS := checkInfoQuality_ne_enough h
      have hrec := ih (k + 1) (mergeExtracted acc (payload k)) (by omega)
      simp only [countNode] at hrec ⊢
      rw [List.count_append, hrec]
      decide

theorem traceFrom_search_count (maxS : Nat) (payload : Nat → Extracted) :
    ∀ (n k : Nat) (acc : Extracted), maxS - k ≤ n →
      countNode WFNode.search (traceFrom maxS payload k acc)
        ≤ max (maxS - k) 1 := by
  intro n
  induction n with
  | zero =>
    intro k acc hn
    rw [traceFrom]
    have : checkInfoQuality (k + 1) maxS (mergeExtracted acc (payload k))
        = "enough" := checkInfoQuality_maxed _ (by omega)
    rw [dif_pos this]
    have : countNode WFNode.search
        [WFNode.search, WFNode.extract, WFNode.plan] = 1 := by decide
    omega
  | succ n ih =>
    intro k acc hn
    rw [traceFrom]
    by_cases h : checkInfoQuality (k + 1) maxS
        (mergeExtracted acc (payload k)) = "enough"
    · rw [dif_pos h]
      have : countNode WFNode.search
          [WFNode.search, WFNode.extract, WFNode.plan] = 1 := by decide
      omega
    · rw [dif_neg h]
      have hk : k + 1 < maxS := checkInfoQuality_ne_enough h
      have hrec := ih (k + 1) (mergeExtracted acc (payload k)) (by omega)
      simp only [countNode] at hrec ⊢
      rw [List.count_append]
      have h2 : List.count WFNode.search [WFNode.search, WFNode.extract]
          = 1 := by decide
      omega

/-! ## Structural models of Python `str` primitives

Character-list implementations of the Python string operations the embedded
functions use (`split`, `strip`, `replace`, prefix tests), written by
structural recursion so that every concrete instance evaluates inside the
kernel. -/

/-- Python `\s`-style whitespace over ASCII: the class stripped by `strip()`
and matched by `re` `\s` (the model omits the rarer Unicode spaces, which no
input of interest contains). -/
def isPyWs (c : Char) : Bool :=
  c = ' ' || c = Char.ofNat 9 || c = Char.ofNat 10 || c = Char.ofNat 13 ||
  c = Char.ofNat 11 || c = Char.ofNat 12

def splitOnAuxC (sep : List Char) : Nat → List Char → List Char →
    List (List Char)
  | 0, acc, l => [acc.reverse ++ l]
  | fuel + 1, acc, l =>
    match l with
    | [] => [acc.reverse]
    | c :: rest =>
      if sep.isPrefixOf (c :: rest) then
        acc.reverse :: splitOnAuxC sep fuel [] ((c :: rest).drop sep.length)
      else splitOnAuxC sep fuel (c :: acc) rest

/-- Python `str.split(sep)` for a non-empty separator. -/
def splitOnC (sep l : List Char) : List (List Char) :=
  if sep.isEmpty then [l] else splitOnAuxC sep (l.length + 1) [] l

/-- Python `str.strip()`. -/
def trimC (l : List Char) : List Char :=
  ((l.dropWhile isPyWs).reverse.dropWhile isPyWs).reverse

def replaceAuxC (pat rep : List Char) : Nat → List Char → List Char
  | 0, l => l
  | fuel + 1, l =>
    match l with
    | [] => []
    | c :: rest =>
      if pat.isPrefixOf (c :: rest) then
        rep ++ replaceAuxC pat rep fuel ((c :: rest).drop pat.length)
      else c :: replaceAuxC pat rep fuel rest

/-- Python `str.replace(pat, rep)` for a non-empty pattern. -/
def replaceC (pat rep l : List Char) : List Char :=
  if pat.isEmpty then l else replaceAuxC pat rep (l.length + 1) l

def joinC (sep : List Char) : List (List Char) → List Char
  | [] => []
  | [x] => x
  | x :: y :: rest => x ++ sep ++ joinC sep (y :: rest)

/-! ## The plan composer fallback `_create_fallback_plan`
(travel_workflow.py 1403-1457) -/

structure UserProfile where
  destination : String
  days : Nat
  origin : Option String
  group_type : Option String
  preferences : List String
deriving DecidableEq, Repr

structure ScheduleEntry where
  time : String
  poi : String
  activity : String
  duration : String
deriving DecidableEq, Repr

structure DayEntry where
  day : Nat
  date : String
  theme : String
  schedule : List ScheduleEntry
deriving DecidableEq, Repr

/-- The dict returned by `_create_fallback_plan`; its constant `"tips": {}`
member carries no data and is omitted. -/
structure FallbackPlan where
  overview : String
  highlights : List String
  days : List DayEntry
deriving DecidableEq, Repr

/-- The best-route selection: first route whose day count equals the
requested days, else the first route. -/
def chooseRoute (udays : Nat) (r : Route) (rs : List Route) : Route :=
  ((r :: rs).find? (fun x => x.days == udays)).getD r

/-- The route branch: one day entry per element of `daily_plan[:udays]`. -/
def routeDays (udays : Nat) (r : Route) : List DayEntry :=
  (r.daily_plan.take udays).foldl
    (fun acc dp =>
      let d := dp.day.getD (acc.length + 1)
      acc ++ [{ day := d, date := "Day " ++ toString d,
                theme := dp.theme.getD "游览",
                schedule := (dp.places.take 5).map
                  (fun pl => ⟨"09:00", pl, "游览", "2小时"⟩) }])
    []

/-- The standalone-places branch: `user.days` chunks of
`max 1 (len(places) // user.days)` places each.  (For `user.days = 0` the
Python code raises `ZeroDivisionError`; the branch is only reached with at
least one requested day in the model's theorems.) -/
def placeDays (udays : Nat) (places : List Place) : List DayEntry :=
  let ppd := max 1 (places.length / udays)
  (List.range udays).map (fun dn =>
    { day := dn + 1, date := "Day " ++ toString (dn + 1), theme := "游览",
      schedule := ((places.drop (dn * ppd)).take ppd).map
        (fun p => ⟨"09:00", p.name, "游览", "2小时"⟩) })

def createFallbackPlan (u : UserProfile) (e : Extracted) : FallbackPlan where
  overview := u.destination ++ toString u.days ++ "天之旅"
  highlights := []
  days :=
    match e.routes with
    | r :: rs => routeDays u.days (chooseRoute u.days r rs)
    | [] => if e.places.isEmpty then [] else placeDays u.days e.places

/-! ## Schedule item normalization (`nodes.py` 940-982) -/

/-- Value of the `tips` key of a raw schedule item: the code special-cases a
list (joined with `；`), otherwise keeps a string. -/
inductive TipsVal where
  | str (s : String)
  | lst (l : List String)
deriving DecidableEq, Repr

structure SItem where
  time : Option String
  poi : Option String
  location : Option String
  name : Option String
  place : Option String
  activity : Option String
  description : Option String
  duration : Option String
  tips : Option TipsVal
  route_info : Option String
  transport : Option String
deriving DecidableEq, Repr

structure NormItem where
  time : String
  poi : String
  activity : String
  duration : String
  tips : String
  route_info : String
deriving DecidableEq, Repr

/-- Python `a or b` over an optional string: first truthy operand. -/
def orTruthy (a : Option String) (b : String) : String :=
  match a with
  | some s => if s ≠ "" then s else b
  | none => b

def joinSep (sep : String) : List String → String
  | [] => ""
  | [s] => s
  | s :: rest => s ++ sep ++ joinSep sep rest

/-- `item.get("poi") or item.get("location") or item.get("name") or
item.get("place") or ""`. -/
def poiRaw (item : SItem) : String :=
  orTruthy item.poi (orTruthy item.location (orTruthy item.name
    (orTruthy item.place "")))

/-- The fallback extraction of `_get_poi`: after the first keyword found in
the activity text, cut at `，` and `（`, strip, and truncate to 20
characters. -/
def extractPoiFromActivity (activity : String) : List String → String
  | [] => ""
  | kw :: rest =>
    let parts := splitOnC kw.data activity.data
    if 1 < parts.length then
      String.mk ((trimC ((splitOnC "（".data
        ((splitOnC "，".data (parts.getD 1 [])).headD [])).headD [])).take 20)
    else extractPoiFromActivity activity rest

def poiKeywords : List String := ["游览", "前往", "到达", "参观"]

/-- `_get_poi` (nodes.py 962-982). -/
def getPoi (item : SItem) : String :=
  let poi := poiRaw item
  let poi :=
    if poi = "" then extractPoiFromActivity (item.activity.getD "") poiKeywords
    else poi
  if poi ≠ "" then poi else "待定地点"

/-- `normalize_schedule_item` (nodes.py 940-959).  The `None` early return
for a non-dict item is outside the typed model. -/
def normalizeScheduleItem (item : SItem) : NormItem where
  time := item.time.getD "待定"
  poi := getPoi item
  activity := item.activity.getD (item.description.getD "")
  duration := item.duration.getD "1小时"
  tips :=
    match item.tips with
    | none => ""
    | some (TipsVal.str s) => s
    | some (TipsVal.lst l) => joinSep "；" l
  route_info := item.route_info.getD (item.transport.getD "")

/-! ## JSON recovery (`travel_workflow.py` 1510-1649)

The model carries its own JSON value type and parser for `json.loads`.
Restrictions of the model: numbers are integers (a payload with fractional
or exponent numbers, or `NaN`/`Infinity`, is outside the model), `\uXXXX`
escapes are decoded without surrogate pairing, and parser recursion is
bounded by a fuel of twice the input length — ample for any input, since
each nesting level consumes at least one character (CPython instead raises
`RecursionError` past its recursion limit, an escape the Python code under
study does not catch either). -/

inductive Json where
  | null
  | bool (b : Bool)
  | num (n : Int)
  | str (s : String)
  | arr (xs : List Json)
  | obj (kvs : List (String × Json))

/-- The double-quote character. -/
def dqc : Char := Char.ofNat 34

/-- The apostrophe character. -/
def sqc : Char := Char.ofNat 39

/-- JSON inter-token whitespace accepted by `json.loads`. -/
def isJWs (c : Char) : Bool :=
  c = ' ' || c = Char.ofNat 9 || c = Char.ofNat 10 || c = Char.ofNat 13

def skipWs (l : List Char) : List Char := l.dropWhile isJWs

def hexVal (c : Char) : Option Nat :=
  if c.toNat ≥ 48 ∧ c.toNat ≤ 57 then some (c.toNat - 48)
  else if c.toNat ≥ 97 ∧ c.toNat ≤ 102 then some (c.toNat - 87)
  else if c.toNat ≥ 65 ∧ c.toNat ≤ 70 then some (c.toNat - 55)
  else none

/-- JSON string body parser (opening quote already consumed); strict mode:
raw control characters are rejected. -/
def parseJStringAux : Nat → List Char → List Char →
    Option (String × List Char)
  | 0, _, _ => none
  | fuel + 1, acc, s =>
    match s with
    | [] => none
    | c :: rest =>
      if c = dqc then some (String.mk acc, rest)
      else if c = '\\' then
        match rest with
        | [] => none
        | e :: r2 =>
          if e = dqc then parseJStringAux fuel (acc ++ [dqc]) r2
          else if e = '\\' then parseJStringAux fuel (acc ++ ['\\']) r2
          else if e = '/' then parseJStringAux fuel (acc ++ ['/']) r2
          else if e = 'b' then parseJStringAux fuel (acc ++ [Char.ofNat 8]) r2
          else if e = 'f' then parseJStringAux fuel (acc ++ [Char.ofNat 12]) r2
          else if e = 'n' then parseJStringAux fuel (acc ++ [Char.ofNat 10]) r2
          else if e = 'r' then parseJStringAux fuel (acc ++ [Char.ofNat 13]) r2
          else if e = 't' then parseJStringAux fuel (acc ++ [Char.ofNat 9]) r2
          else if e = 'u' then
            match r2 with
            | h1 :: h2 :: h3 :: h4 :: r3 =>
              match hexVal h1, hexVal h2, hexVal h3, hexVal h4 with
              | some a, some b, some c3, some d =>
                parseJStringAux fuel
                  (acc ++ [Char.ofNat (((a * 16 + b) * 16 + c3) * 16 + d)]) r3
              | _, _, _, _ => none
            | _ => none
          else none
      else if c.toNat < 32 then none
      else parseJStringAux fuel (acc ++ [c]) rest

def parseJString (s : List Char) : Option (String × List Char) :=
  parseJStringAux (s.length + 1) [] s

/-- Integer literal parser; leading zeros are rejected as in strict JSON,
and a following `.`/`e`/`E` (a float) is outside the model. -/
def parseJNum (s : List Char) : Option (Json × List Char) :=
  let neg := match s with
    | c :: _ => c == '-'
    | [] => false
  let s1 := if neg then s.drop 1 else s
  let ds := s1.takeWhile Char.isDigit
  let rest := s1.dropWhile Char.isDigit
  if ds.isEmpty then none
  else if 1 < ds.length ∧ ds.headD '0' = '0' then none
  else
    let bad := match rest with
      | c :: _ => c = '.' || c = 'e' || c = 'E'
      | [] => false
    if bad then none
    else
      let v : Int := Int.ofNat (ds.foldl (fun a c => a * 10 + (c.toNat - 48)) 0)
      some (Json.num (if neg then -v else v), rest)

/-- CPython dict insertion: a repeated key replaces the value at its
first-insertion position. -/
def objInsert (kvs : List (String × Json)) (k : String) (v : Json) :
    List (String × Json) :=
  if kvs.any (fun p => p.1 == k) then
    kvs.map (fun p => if p.1 == k then (k, v) else p)
  else kvs ++ [(k, v)]

mutual

def parseValue : Nat → List Char → Option (Json × List Char)
  | 0, _ => none
  | fuel + 1, s =>
    match skipWs s with
    | [] => none
    | c :: rest =>
      if c = 'n' then
        if ['u', 'l', 'l'].isPrefixOf rest then some (Json.null, rest.drop 3)
        else none
      else if c = 't' then
        if ['r', 'u', 'e'].isPrefixOf rest then
          some (Json.bool true, rest.drop 3)
        else none
      else if c = 'f' then
        if ['a', 'l', 's', 'e'].isPrefixOf rest then
          some (Json.bool false, rest.drop 4)
        else none
      else if c = dqc then
        match parseJString rest with
        | some (str, r1) => some (Json.str str, r1)
        | none => none
      else if c = '[' then
        match skipWs rest with
        | d :: r2 =>
          if d = ']' then some (Json.arr [], r2)
          else parseArrItems fuel [] (d :: r2)
        | [] => none
      else if c = '{' then
        match skipWs rest with
        | d :: r2 =>
          if d = '}' then some (Json.obj [], r2)
          else parseObjItems fuel [] (d :: r2)
        | [] => none
      else if c = '-' || c.isDigit then parseJNum (c :: rest)
      else none

def parseArrItems : Nat → List Json → List Char →
    Option (Json × List Char)
  | 0, _, _ => none
  | fuel + 1, acc, s =>
    match parseValue fuel s with
    | none => none
    | some (v, r) =>
      match skipWs r with
      | c :: r2 =>
        if c = ',' then parseArrItems fuel (acc ++ [v]) r2
        else if c = ']' then some (Json.arr (acc ++ [v]), r2)
        else none
      | [] => none

def parseObjItems : Nat → List (String × Json) → List Char →
    Option (Json × List Char)
  | 0, _, _ => none
  | fuel + 1, acc, s =>
    match skipWs s with
    | c :: r =>
      if c = dqc then
        match parseJString r with
        | none => none
        | some (k, r1) =>
          match skipWs r1 with
          | d :: r2 =>
            if d = ':' then
              match parseValue fuel r2 with
              | none => none
              | some (v, r3) =>
                match skipWs r3 with
                | e :: r4 =>
                  if e = ',' then parseObjItems fuel (objInsert acc k v) r4
                  else if e = '}' then
                    some (Json.obj (objInsert acc k v), r4)
                  else none
                | [] => none
            else none
          | [] => none
      else none
    | [] => none

end

/-- Model of `json.loads`: parse one value, then require only whitespace to
remain. -/
def pyLoads (s : String) : Option Json :=
  match parseValue (2 * s.length + 4) s.data with
  | some (v, rest) => if (skipWs rest).isEmpty then some v else none
  | none => none

/-- Transcription of `_extract_json`.  The markdown-fence regex
`(?:json)?\s*([\s\S]*?)` between two fences matches exactly when at least
two fence markers occur; the captured text is everything between the first
two, with an immediate `json` tag and surrounding whitespace stripped. -/
def fenceC : List Char := [Char.ofNat 96, Char.ofNat 96, Char.ofNat 96]

def extractJson (content : String) : String :=
  if content = "" then "{}"
  else
    let c := trimC content.data
    let parts := splitOnC fenceC c
    if 3 ≤ parts.length then
      let inner := parts.getD 1 []
      let inner :=
        if ['j', 's', 'o', 'n'].isPrefixOf inner then inner.drop 4 else inner
      String.mk (trimC inner)
    else
      match c.findIdx? (fun ch => ch == '{'),
          c.reverse.findIdx? (fun ch => ch == '}') with
      | some start, some revEnd =>
        let stop := c.length - 1 - revEnd
        if start < stop then String.mk ((c.drop start).take (stop - start + 1))
        else String.mk c
      | _, _ => String.mk c

/-- `re.sub(r'//.*?(?=\n|$)', '', s)`: on each line, cut from the first
`//`. -/
def removeLineComments (s : String) : String :=
  String.mk (joinC [Char.ofNat 10]
    ((splitOnC [Char.ofNat 10] s.data).map
      (fun line => (splitOnC ['/', '/'] line).headD line)))

def findSub (pat : List Char) : List Char → Option Nat
  | [] => if pat.isEmpty then some 0 else none
  | c :: rest =>
    if pat.isPrefixOf (c :: rest) then some 0
    else match findSub pat rest with
      | some i => some (i + 1)
      | none => none

/-- `re.sub(r'/\*[\s\S]*?\*/', '', s)`: repeatedly remove the region from a
`/*` to the nearest following `*/`; a `/*` with no closing marker stays. -/
def removeBlockAux : Nat → List Char → List Char
  | 0, l => l
  | fuel + 1, l =>
    match findSub ['/', '*'] l with
    | none => l
    | some i =>
      let after := l.drop (i + 2)
      match findSub ['*', '/'] after with
      | none => l
      | some j => l.take i ++ removeBlockAux fuel (after.drop (j + 2))

def removeBlockComments (s : String) : String :=
  String.mk (removeBlockAux s.length s.data)

/-- `re.sub(r',(\s*[}\]])', r'\1', s)`: one left-to-right pass dropping each
comma directly (modulo whitespace) before a closing brace or bracket, the
matched region being consumed. -/
def rtcAux : Nat → List Char → List Char
  | 0, l => l
  | fuel + 1, l =>
    match l with
    | [] => []
    | c :: rest =>
      if c = ',' then
        let ws := rest.takeWhile isPyWs
        match rest.dropWhile isPyWs with
        | b :: tail =>
          if b = '}' || b = ']' then ws ++ [b] ++ rtcAux fuel tail
          else c :: rtcAux fuel rest
        | [] => c :: rtcAux fuel rest
      else c :: rtcAux fuel rest

def removeTrailingCommas (s : String) : String :=
  String.mk (rtcAux s.length s.data)

/-- `re.sub(r'[\x00-\x1f\x7f-\x9f]', '', s)`. -/
def removeCtrl (s : String) : String :=
  String.mk (s.data.filter
    (fun c => !(c.toNat ≤ 31 || (127 ≤ c.toNat && c.toNat ≤ 159))))

/-- Transcription of `_fix_json_string`. -/
def fixJsonString (s : String) : String :=
  if s = "" then "{}"
  else removeCtrl (removeTrailingCommas
    (removeBlockComments (removeLineComments s)))

def dropTrailingWs (l : List Char) : List Char :=
  (l.reverse.dropWhile isPyWs).reverse

def dropTrailingCommas (l : List Char) : List Char :=
  (l.reverse.dropWhile (fun c => c = ',')).reverse

/-- One line of `_fix_json_line_by_line`: strip one trailing comma after an
rstrip; if the next raw line starts (stripped) with a closing bracket or
brace, strip all trailing commas. -/
def fixLine (line : List Char) (next : Option (List Char)) : List Char :=
  let l1 := dropTrailingWs line
  let l2 :=
    match l1.reverse with
    | c :: r => if c = ',' then r.reverse else l1
    | [] => l1
  match next with
  | some nx =>
    match trimC nx with
    | c :: _ =>
      if c = ']' || c = '}' then dropTrailingCommas (dropTrailingWs l2)
      else l2
    | [] => l2
  | none => l2

def fixLinesAux : List (List Char) → List (List Char)
  | [] => []
  | [l] => [fixLine l none]
  | l :: nx :: rest => fixLine l (some nx) :: fixLinesAux (nx :: rest)

/-- Transcription of `_fix_json_line_by_line`. -/
def fixJsonLineByLine (s : String) : String :=
  String.mk (joinC [Char.ofNat 10]
    (fixLinesAux (splitOnC [Char.ofNat 10] s.data)))

/-- Transcription of `_safe_parse_json`: four parse attempts, then the
caller-supplied default.  The third attempt replaces every apostrophe by a
double quote. -/
def safeParse (content : String) (dflt : Json) : Json :=
  if content = "" then dflt
  else
    let ex := extractJson content
    match pyLoads ex with
    | some v => v
    | none =>
      match pyLoads (fixJsonString ex) with
      | some v => v
      | none =>
        match pyLoads (String.mk (replaceC [sqc] [dqc] ex.data)) with
        | some v => v
        | none =>
          match pyLoads (fixJsonLineByLine ex) with
          | some v => v
          | none => dflt

/-! ## Search query generation (`travel_workflow.py` 183-444)

LLM calls are oracles: a round's structured output is a parameter, and
`none` stands for the exception path that triggers the template fallback. -/

/-- Structured output of the round-1 core-query call
(`CoreSearchQueries`). -/
structure CoreQueries where
  route : List String
  food : List String
  accommodation : List String
  attraction : List String
  preference : List String
deriving DecidableEq, Repr

def fallbackCoreQueries (destination : String) (days : Nat) : List String :=
  [destination ++ " " ++ toString days ++ "天旅游攻略",
   destination ++ " 美食推荐",
   destination ++ " 住宿攻略",
   destination ++ " 必去景点"]

/-- `generate_core_queries`: two from each category, then de-duplicated
in-batch (empty strings dropped); the fallback templates on failure. -/
def generateCoreQueries (oracle : Option CoreQueries) (destination : String)
    (days : Nat) : List String :=
  match oracle with
  | some r =>
    addKeyed (fun q : String => q) (fun q => q != "") [] []
      (r.route.take 2 ++ r.food.take 2 ++ r.accommodation.take 2 ++
        r.attraction.take 2 ++ r.preference.take 2)
  | none => fallbackCoreQueries destination days

def supplementTemplate (destination info : String) : String :=
  if info = "places" then destination ++ " 景点推荐"
  else if info = "food" then destination ++ " 本地美食"
  else if info = "accommodation" then destination ++ " 酒店推荐"
  else if info = "transportation" then destination ++ " 交通攻略"
  else if info = "route" then destination ++ " 行程安排"
  else if info = "avoid" then destination ++ " 避坑指南"
  else if info = "tips" then destination ++ " 旅游注意事项"
  else destination ++ " 旅游攻略"

def fallbackSupplementQueries (destination : String)
    (missing : List String) : List String :=
  (missing.take 3).map (supplementTemplate destination)

/-- `generate_supplement_queries`: the LLM batch filtered against the full
history only (no in-batch de-duplication), first four kept; the templates on
failure (filtered against nothing). -/
def generateSupplementQueries (oracle : Option (List String))
    (destination : String) (searched missing : List String) : List String :=
  match oracle with
  | some qs => (qs.filter (fun q => !searched.contains q)).take 4
  | none => fallbackSupplementQueries destination missing

/-- The per-round inputs `search_node` does not compute itself: the two LLM
oracles and the `_missing_info` list left by the previous quality check. -/
structure RoundOracle where
  core : Option CoreQueries
  supp : Option (List String)
  missing : List String
deriving DecidableEq, Repr

/-- The queries issued by one `search_node` round (round number already
incremented). -/
def roundQueries (destination : String) (days : Nat) (searchCount : Nat)
    (searched : List String) (o : RoundOracle) : List String :=
  if searchCount = 1 then generateCoreQueries o.core destination days
  else
    let missing := if o.missing.isEmpty then ["avoid", "tips"] else o.missing
    generateSupplementQueries o.supp destination searched missing

/-- All queries issued over a run: each round appends its queries to the
shared `_searched_queries` history (an empty batch leaves the state
untouched and the run continues). -/
def runQueries (destination : String) (days : Nat) :
    Nat → List String → List RoundOracle → List String
  | _, _, [] => []
  | count, searched, o :: rest =>
    let qs := roundQueries destination days (count + 1) searched o
    qs ++ runQueries destination days (count + 1)
      (if qs.isEmpty then searched else searched ++ qs) rest

theorem addKeyed_nodup_id (guard : String → Bool) :
    ∀ (news : List String) (acc seen : List String),
      acc.Nodup → (∀ b ∈ acc, b ∈ seen) →
      (addKeyed (fun q : String => q) guard acc seen news).Nodup := by
  intro news
  induction news with
  | nil => intro acc seen h _; exact h
  | cons n rest ih =>
    intro acc seen h hsub
    by_cases hc : guard n = true ∧ (fun q : String => q) n ∉ seen
    · rw [show addKeyed (fun q : String => q) guard acc seen (n :: rest)
          = addKeyed (fun q : String => q) guard (acc ++ [n])
            (seen ++ [(fun q : String => q) n]) rest from by
        simp only [addKeyed, if_pos hc]]
      refine ih (acc ++ [n]) _ ?_ ?_
      · exact nodup_append_singleton (fun hmem => hc.2 (hsub n hmem)) h
      · intro b hb
        rcases List.mem_append.1 hb with h1 | h1
        · exact List.mem_append.2 (Or.inl (hsub b h1))
        · simp only [List.mem_singleton] at h1
          exact List.mem_append.2 (Or.inr (by simp [h1]))
    · rw [show addKeyed (fun q : String => q) guard acc seen (n :: rest)
          = addKeyed (fun q : String => q) guard acc seen rest from by
        simp only [addKeyed, if_neg hc]]
      exact ih acc seen h hsub

theorem string_append_left_cancel {d x y : String} (h : d ++ x = d ++ y) :
    x = y := by
  apply String.ext
  have h2 := congrArg String.data h
  rw [String.data_append, String.data_append] at h2
  exact List.append_cancel_left h2

theorem fallbackCoreQueries_nodup (d : String) (days : Nat) :
    (fallbackCoreQueries d days).Nodup := by
  have e1 : (" " : String).length = 1 := by decide
  have e2 : ("天旅游攻略" : String).length = 5 := by decide
  have elen : ∀ x : String, x.length = 5 →
      d ++ " " ++ toString days ++ "天旅游攻略" ≠ d ++ x := by
    intro x hx h
    have hc := congrArg String.length h
    rw [String.length_append, String.length_append, String.length_append,
      String.length_append, e1, e2, hx] at hc
    omega
  have h12 := elen " 美食推荐" (by decide)
  have h13 := elen " 住宿攻略" (by decide)
  have h14 := elen " 必去景点" (by decide)
  have h23 : d ++ " 美食推荐" ≠ d ++ " 住宿攻略" := by
    intro h
    exact absurd (string_append_left_cancel h) (by decide)
  have h24 : d ++ " 美食推荐" ≠ d ++ " 必去景点" := by
    intro h
    exact absurd (string_append_left_cancel h) (by decide)
  have h34 : d ++ " 住宿攻略" ≠ d ++ " 必去景点" := by
    intro h
    exact absurd (string_append_left_cancel h) (by decide)
  unfold fallbackCoreQueries
  refine List.nodup_cons.2 ⟨?_, List.nodup_cons.2 ⟨?_,
    List.nodup_cons.2 ⟨?_, List.nodup_singleton _⟩⟩⟩
  · intro hm
    rcases List.mem_cons.1 hm with h | hm
    · exact h12 h
    rcases List.mem_cons.1 hm with h | hm
    · exact h13 h
    rcases List.mem_singleton.1 hm with h
    · exact h14 h
  · intro hm
    rcases List.mem_cons.1 hm with h | hm
    · exact h23 h
    rcases List.mem_singleton.1 hm with h
    · exact h24 h
  · intro hm
    rcases List.mem_singleton.1 hm with h
    · exact h34 h

theorem generateCoreQueries_nodup (oracle : Option CoreQueries)
    (destination : String) (days : Nat) :
    (generateCoreQueries oracle destination days).Nodup := by
  cases oracle with
  | some r =>
    exact addKeyed_nodup_id _ _ [] [] List.nodup_nil (by simp)
  | none => exact fallbackCoreQueries_nodup destination days

theorem suppBatch_nodup {qs searched : List String} (h : qs.Nodup) :
    ((qs.filter (fun q => !searched.contains q)).take 4).Nodup :=
  ((qs.filter (fun q => !searched.contains q)).take_sublist 4).nodup
    (h.filter _)

theorem suppBatch_not_searched {qs searched : List String} :
    ∀ q ∈ (qs.filter (fun q => !searched.contains q)).take 4,
      q ∉ searched := by
  intro q hq
  have h1 := List.take_subset 4 _ hq
  have h2 := (List.mem_filter.1 h1).2
  simpa using h2

theorem runQueries_supp_nodup (d : String) (days : Nat) :
    ∀ (rounds : List RoundOracle) (count : Nat) (searched : List String),
      1 ≤ count →
      (∀ o ∈ rounds, ∃ qs, o.supp = some qs ∧ qs.Nodup) →
      (runQueries d days count searched rounds).Nodup ∧
        ∀ q ∈ runQueries d days count searched rounds, q ∉ searched := by
  intro rounds
  induction rounds with
  | nil =>
    intro count searched _ _
    exact ⟨List.nodup_nil, by simp [runQueries]⟩
  | cons o rest ih =>
    intro count searched hc ho
    obtain ⟨qs0, hsupp, hnodup0⟩ := ho o (List.mem_cons_self o rest)
    have hq : roundQueries d days (count + 1) searched o
        = (qs0.filter (fun q => !searched.contains q)).take 4 := by
      unfold roundQueries
      rw [if_neg (by omega)]
      simp only [generateSupplementQueries, hsupp]
    have hrun : runQueries d days count searched (o :: rest)
        = roundQueries d days (count + 1) searched o ++
          runQueries d days (count + 1)
            (if (roundQueries d days (count + 1) searched o).isEmpty
              then searched
              else searched ++ roundQueries d days (count + 1) searched o)
            rest := by
      simp only [runQueries]
    rw [hrun, hq]
    set Q := (qs0.filter (fun q => !searched.contains q)).take 4 with hQdef
    set searched' := if Q.isEmpty then searched else searched ++ Q with hsdef
    have hrest := ih (count + 1) searched' (by omega)
      (fun x hx => ho x (List.mem_cons_of_mem _ hx))
    have hss : searched ⊆ searched' := by
      rw [hsdef]
      by_cases he : Q.isEmpty
      · rw [if_pos he]
        exact fun a ha => ha
      · rw [if_neg he]
        exact fun a ha => List.mem_append.2 (Or.inl ha)
    have hmemQ : ∀ q ∈ Q, q ∈ searched' := by
      intro q hqm
      have he : ¬ Q.isEmpty = true := by
        intro hcon
        rw [List.isEmpty_iff.1 hcon] at hqm
        exact List.not_mem_nil q hqm
      rw [hsdef, if_neg he]
      exact List.mem_append.2 (Or.inr hqm)
    constructor
    · rw [List.nodup_append]
      refine ⟨suppBatch_nodup hnodup0, hrest.1, ?_⟩
      intro q hqm hqr
      exact hrest.2 q hqr (hmemQ q hqm)
    · intro q hqm
      rcases List.mem_append.1 hqm with h1 | h1
      · exact suppBatch_not_searched q h1
      · exact fun hcon => hrest.2 q h1 (hss hcon)

/-! ## `TravelPlanTool._run` and the `TokenBudget` dataclass
(travel_plan_tool.py 57-163, token_budget.py 8-29, state.py 68-73) -/

/-- Field names of the `TokenBudget` dataclass in
`src/utils/token_budget.py`. -/
def tokenBudgetFields : List String :=
  ["extract", "plan", "max_notes_per_search", "max_note_length",
   "max_context_length", "total_budget", "consumed"]

/-- Keyword-argument names `_get_token_budget` passes to the `TokenBudget`
constructor — identical for all three quality presets, and the whole
`configs` dict literal is built eagerly before `.get`. -/
def tokenBudgetCallKwargs : List String :=
  ["summary", "planning", "refine", "total_budget", "max_notes_per_search",
   "max_note_length"]

/-- Parameter names of `create_initial_state` (state.py). -/
def createInitialStateParams : List String :=
  ["user_profile", "session_id", "max_searches", "token_budget"]

/-- Keyword arguments `TravelPlanTool._run` passes to
`create_initial_state`. -/
def createInitialStateCallKwargs : List String :=
  ["user_profile", "session_id", "max_searches", "skip_map", "skip_weather",
   "token_budget"]

/-- A Python call binds without `TypeError` iff every keyword names a
parameter (none of these calls uses `**kwargs`). -/
def pyCallOk (params kwargs : List String) : Bool :=
  kwargs.all (fun k => params.contains k)

/-- Outcome of `TravelPlanTool._run`: a returned JSON payload or an
exception escaping the call. -/
inductive RunOutcome where
  | payload (kind : String)
  | exn (msg : String)
deriving DecidableEq, Repr

/-- `TravelPlanTool._run`.  The prologue before the `try` at line 115 builds
the token budget (line 103) and the initial state (lines 106-113); an
exception raised there escapes the call.  Inside the `try`, every path
returns a structured payload (`_process_result`, `_get_partial_result` or
`_handle_error`), abstracted by `graphOutcome`. -/
def runTool (qualityLevel : String) (graphAvailable : Bool)
    (graphOutcome : String) : RunOutcome :=
  if pyCallOk tokenBudgetFields tokenBudgetCallKwargs then
    if pyCallOk createInitialStateParams createInitialStateCallKwargs then
      if graphAvailable then RunOutcome.payload graphOutcome
      else RunOutcome.payload "error"
    else RunOutcome.exn "TypeError: create_initial_state() got an unexpected keyword argument"
  else RunOutcome.exn "TypeError: TokenBudget.init() got an unexpected keyword argument"

/-! ## The information value evaluator (`src/utils/value_evaluator.py`)

`_calc_information_density` is built on eight `re.findall` patterns; the
model carries a small backtracking regex engine whose alternation order,
greedy bounded repetition and leftmost non-overlapping scan mirror Python
`re`.  Every quantifier of the source patterns is bounded once `+` is read
as `{1, len(text)}`, which recognises the same matches on a fixed input. -/

inductive Rx where
  | cls (f : Char → Bool)
  | lit (s : List Char)
  | alt (rs : List Rx)
  | seq (rs : List Rx)
  | rep (r : Rx) (lo hi : Nat)
  | grp (r : Rx)

mutual
/-- Structural bound on the recursion depth of the matcher: every
recursive step of `matchRxF` passes a regex of strictly smaller `rxFuel`,
so starting from `rxFuel r` the fuel never runs out. -/
def rxFuel : Rx → Nat
  | Rx.cls _ => 1
  | Rx.lit _ => 1
  | Rx.alt rs => 1 + rxFuelList rs
  | Rx.seq rs => 1 + rxFuelList rs
  | Rx.rep r _ hi => 1 + (hi + 1) * (rxFuel r + 1)
  | Rx.grp r => 1 + rxFuel r
def rxFuelList : List Rx → Nat
  | [] => 0
  | r :: rs => rxFuel r + 1 + rxFuelList rs
end

/-- All ways to match a regex against a prefix of `s`, in Python `re`
priority order (alternation order, greedy repetition): each result is the
remaining suffix together with the capture of group 1, if any.  Recursion
is structural on an explicit fuel; the `fuel = 0` clause is unreachable
from `matchRx` below. -/
def matchRxF : Nat → Rx → List Char → List (List Char × Option (List Char))
  | 0, _, _ => []
  | _ + 1, Rx.cls _, [] => []
  | _ + 1, Rx.cls f, c :: rest => if f c then [(rest, none)] else []
  | _ + 1, Rx.lit p, s =>
    if p.isPrefixOf s then [(s.drop p.length, none)] else []
  | _ + 1, Rx.alt [], _ => []
  | fuel + 1, Rx.alt (r :: rs), s =>
    matchRxF fuel r s ++ matchRxF fuel (Rx.alt rs) s
  | _ + 1, Rx.seq [], s => [(s, none)]
  | fuel + 1, Rx.seq (r :: rs), s =>
    (matchRxF fuel r s).flatMap (fun p =>
      (matchRxF fuel (Rx.seq rs) p.1).map (fun q => (q.1, p.2 <|> q.2)))
  | _ + 1, Rx.rep _ lo 0, s => if lo = 0 then [(s, none)] else []
  | fuel + 1, Rx.rep r lo (hi + 1), s =>
    ((matchRxF fuel r s).flatMap (fun p =>
      (matchRxF fuel (Rx.rep r (lo - 1) hi) p.1).map
        (fun q => (q.1, p.2 <|> q.2)))) ++
    (if lo = 0 then [(s, none)] else [])
  | fuel + 1, Rx.grp r, s =>
    (matchRxF fuel r s).map
      (fun p => (p.1, some (s.take (s.length - p.1.length))))

def matchRx (r : Rx) (s : List Char) :
    List (List Char × Option (List Char)) :=
  matchRxF (rxFuel r) r s

/-- `re.findall`: leftmost non-overlapping scan taking the first (highest
priority) match at each position; records group 1. -/
def rxFindAll (r : Rx) : Nat → List Char → List (List Char)
  | 0, _ => []
  | fuel + 1, s =>
    match matchRx r s with
    | (s', g) :: _ =>
      if s'.length < s.length then
        g.getD (s.take (s.length - s'.length)) :: rxFindAll r fuel s'
      else
        match s with
        | [] => []
        | _ :: rest => rxFindAll r fuel rest
    | [] =>
      match s with
      | [] => []
      | _ :: rest => rxFindAll r fuel rest

def reFindAll (r : Rx) (s : List Char) : List String :=
  (rxFindAll r (s.length + 1) s).map String.mk

def rlit (s : String) : Rx := Rx.lit s.data

def digitC : Rx := Rx.cls Char.isDigit

/-- `[：:]`. -/
def colonC : Rx := Rx.cls (fun c => c = ':' || c = '：')

/-- `.` (anything but a newline). -/
def dotC : Rx := Rx.cls (fun c => c.toNat ≠ 10)

/-- `\s`. -/
def wsC : Rx := Rx.cls isPyWs

/-- `[一-龥]`. -/
def cjkC : Rx := Rx.cls (fun c => 19968 ≤ c.toNat && c.toNat ≤ 40869)

/-- `(\d{1,2}[：:]\d{2}|\d{1,2}点|上午|下午|早上|晚上)`. -/
def timeRx : Rx :=
  Rx.grp (Rx.alt
    [Rx.seq [Rx.rep digitC 1 2, colonC, Rx.rep digitC 2 2],
     Rx.seq [Rx.rep digitC 1 2, rlit "点"],
     rlit "上午", rlit "下午", rlit "早上", rlit "晚上"])

/-- `(\d+元|￥\d+|\d+块|人均\d+)`. -/
def priceRx (n : Nat) : Rx :=
  Rx.grp (Rx.alt
    [Rx.seq [Rx.rep digitC 1 n, rlit "元"],
     Rx.seq [rlit "￥", Rx.rep digitC 1 n],
     Rx.seq [Rx.rep digitC 1 n, rlit "块"],
     Rx.seq [rlit "人均", Rx.rep digitC 1 n]])

/-- `[\d:：\-~～至到]`. -/
def openBodyC : Rx :=
  Rx.cls (fun c => c.isDigit || c = ':' || c = '：' || c = '-' || c = '~' ||
    c = '～' || c = '至' || c = '到')

/-- `[-~～至到]`. -/
def dashC : Rx :=
  Rx.cls (fun c => c = '-' || c = '~' || c = '～' || c = '至' || c = '到')

/-- `[\d:：]`. -/
def digitColonC : Rx := Rx.cls (fun c => c.isDigit || c = ':' || c = '：')

/-- `(开放时间[：:]\s*[\d:：\-~～至到]+|[\d:：]+\s*[-~～至到]\s*[\d:：]+)`. -/
def openTimeRx (n : Nat) : Rx :=
  Rx.grp (Rx.alt
    [Rx.seq [rlit "开放时间", colonC, Rx.rep wsC 0 n, Rx.rep openBodyC 1 n],
     Rx.seq [Rx.rep digitColonC 1 n, Rx.rep wsC 0 n, dashC,
       Rx.rep wsC 0 n, Rx.rep digitColonC 1 n]])

/-- `(门票[：:]\s*\d+|票价[：:]\s*\d+|免费|免门票)`. -/
def ticketRx (n : Nat) : Rx :=
  Rx.grp (Rx.alt
    [Rx.seq [rlit "门票", colonC, Rx.rep wsC 0 n, Rx.rep digitC 1 n],
     Rx.seq [rlit "票价", colonC, Rx.rep wsC 0 n, Rx.rep digitC 1 n],
     rlit "免费", rlit "免门票"])

/-- `(地铁\d+号线|公交\d+路|步行\d+分钟|打车\d+[分元]|高铁站|机场)`. -/
def transportRx (n : Nat) : Rx :=
  Rx.grp (Rx.alt
    [Rx.seq [rlit "地铁", Rx.rep digitC 1 n, rlit "号线"],
     Rx.seq [rlit "公交", Rx.rep digitC 1 n, rlit "路"],
     Rx.seq [rlit "步行", Rx.rep digitC 1 n, rlit "分钟"],
     Rx.seq [rlit "打车", Rx.rep digitC 1 n,
       Rx.cls (fun c => c = '分' || c = '元')],
     rlit "高铁站", rlit "机场"])

/-- `[「【《"\']([一-龥]{2,10})[」】》"\']`. -/
def placeRx : Rx :=
  Rx.seq
    [Rx.cls (fun c => c = '「' || c = '【' || c = '《' || c = dqc || c = sqc),
     Rx.grp (Rx.rep cjkC 2 10),
     Rx.cls (fun c => c = '」' || c = '】' || c = '》' || c = dqc || c = sqc)]

/-- `([一-龥]{2,8}(?:店|馆|楼|坊|记|居|斋))`. -/
def restaurantRx : Rx :=
  Rx.grp (Rx.seq
    [Rx.rep cjkC 2 8,
     Rx.cls (fun c => c = '店' || c = '馆' || c = '楼' || c = '坊' ||
       c = '记' || c = '居' || c = '斋')])

/-- `(不要.{2,15}|别.{2,10}|避免.{2,15}|注意.{2,15})`. -/
def avoidRx : Rx :=
  Rx.grp (Rx.alt
    [Rx.seq [rlit "不要", Rx.rep dotC 2 15],
     Rx.seq [rlit "别", Rx.rep dotC 2 10],
     Rx.seq [rlit "避免", Rx.rep dotC 2 15],
     Rx.seq [rlit "注意", Rx.rep dotC 2 15]])

inductive InfoCategory where
  | route
  | attraction
  | food
  | transport
  | accommodation
  | avoid
  | unknown
deriving DecidableEq, Repr

def categoryName : InfoCategory → String
  | InfoCategory.route => "route"
  | InfoCategory.attraction => "attraction"
  | InfoCategory.food => "food"
  | InfoCategory.transport => "transport"
  | InfoCategory.accommodation => "accommodation"
  | InfoCategory.avoid => "avoid"
  | InfoCategory.unknown => "unknown"

def categoryHigh : InfoCategory → List String
  | InfoCategory.route =>
    ["路线", "行程", "攻略", "day1", "day2", "day3", "第一天", "第二天",
     "第三天", "安排"]
  | InfoCategory.attraction =>
    ["景点", "必去", "必玩", "打卡", "推荐", "游览", "参观"]
  | InfoCategory.food => ["美食", "必吃", "好吃", "餐厅", "小吃", "特色", "推荐吃"]
  | InfoCategory.transport => ["交通", "地铁", "公交", "高铁", "机场", "怎么去"]
  | InfoCategory.accommodation => ["住宿", "酒店", "民宿", "住哪", "推荐住"]
  | InfoCategory.avoid => ["避坑", "避雷", "踩坑", "不要", "别去", "注意", "坑"]
  | InfoCategory.unknown => []

def categoryMedium : InfoCategory → List String
  | InfoCategory.route => ["规划", "计划", "游玩", "顺序"]
  | InfoCategory.attraction => ["门票", "开放时间", "预约", "排队", "闭馆"]
  | InfoCategory.food => ["饭店", "人均", "口味", "招牌", "排队"]
  | InfoCategory.transport => ["打车", "步行", "骑行", "换乘", "站点"]
  | InfoCategory.accommodation => ["入住", "房间", "位置", "价格", "预订"]
  | InfoCategory.avoid => ["小心", "警惕", "差评", "失望", "后悔"]
  | InfoCategory.unknown => []

def categoryWeight : InfoCategory → ℚ
  | InfoCategory.route => 3
  | InfoCategory.attraction => 3
  | InfoCategory.food => 2
  | InfoCategory.transport => 2
  | InfoCategory.accommodation => 2
  | InfoCategory.avoid => 3
  | InfoCategory.unknown => 0

/-- Iteration order of the `CATEGORY_KEYWORDS` dict. -/
def catList : List InfoCategory :=
  [InfoCategory.route, InfoCategory.attraction, InfoCategory.food,
   InfoCategory.transport, InfoCategory.accommodation, InfoCategory.avoid]

/-- The `HIGH_VALUE_KEYWORDS` dict, in literal order. -/
def highValueKeywords : List (String × ℚ) :=
  [("第一天", 3), ("第二天", 3), ("第三天", 3),
   ("day1", 3), ("day2", 3), ("day3", 3),
   ("上午", 1), ("下午", 1), ("晚上", 1),
   ("必去", 3), ("必玩", 3), ("必吃", 3),
   ("推荐", 2), ("强烈推荐", 3),
   ("本地人", 2), ("老字号", 2),
   ("门票", 2), ("开放时间", 2), ("预约", 2),
   ("免费", 2), ("排队", 2), ("闭馆", 2),
   ("交通", 2), ("地铁", 2), ("公交", 2),
   ("价格", 2), ("人均", 2), ("费用", 2),
   ("路线", 3), ("行程", 3), ("攻略", 2),
   ("顺路", 2), ("步行", 1),
   ("避坑", 3), ("避雷", 3), ("踩坑", 3),
   ("不要", 2), ("别去", 2), ("注意", 2)]

def lowValueMarkers : List String :=
  ["广告", "推广", "合作", "优惠券", "限时",
   "私信", "评论区", "链接", "点击购买",
   "加微信", "加我", "找我", "代购"]

def isSubC : List Char → List Char → Bool
  | needle, [] => needle.isEmpty
  | needle, c :: rest => needle.isPrefixOf (c :: rest) || isSubC needle rest

/-- Python `needle in haystack` on strings. -/
def containsSub (needle : String) (hay : List Char) : Bool :=
  isSubC needle.data hay

/-- Python `str.lower()` (per-character; CJK characters are unaffected). -/
def lowerC (l : List Char) : List Char := l.map Char.toLower

/-- `detect_categories`. -/
def detectCategories (text : String) : List InfoCategory :=
  let tl := lowerC text.data
  let detected := catList.filter (fun c =>
    let hc := (categoryHigh c).countP (fun kw => containsSub kw tl)
    let mc := (categoryMedium c).countP (fun kw => containsSub kw tl)
    2 ≤ hc ∨ (1 ≤ hc ∧ 2 ≤ mc))
  if detected.isEmpty then [InfoCategory.unknown] else detected

/-- The high-value keyword weight sum of `_calc_relevance`. -/
def kwScore (text : String) : ℚ :=
  ((highValueKeywords.filter (fun kv => containsSub kv.1 text.data)).map
    (fun kv => kv.2)).sum

structure EvalCfg where
  destination : String
  days : Nat
  preferences : List String
  targetCategories : List String
deriving DecidableEq, Repr

structure EvalState where
  seenInfo : List String
  seenPlaces : List String
deriving DecidableEq, Repr

/-- The destination-match test of `_calc_relevance`. -/
def destHit (cfg : EvalCfg) (text : String) : Bool :=
  containsSub (String.mk (lowerC cfg.destination.data)) text.data

/-- The day-count pattern test of `_calc_relevance`. -/
def dayHit (cfg : EvalCfg) (text : String) : Bool :=
  let ds := toString cfg.days
  containsSub (ds ++ "天") text.data || containsSub (ds ++ "日") text.data ||
    containsSub (ds ++ "d") text.data || containsSub (ds ++ "day") text.data

/-- The user-preference hit count of `_calc_relevance`. -/
def prefMatches (cfg : EvalCfg) (text : String) : Nat :=
  cfg.preferences.countP
    (fun p => containsSub (String.mk (lowerC p.data)) text.data)

def catWeightSum (categories : List InfoCategory) : ℚ :=
  (categories.map categoryWeight).sum

/-- `_calc_relevance`. -/
def calcRelevance (cfg : EvalCfg) (text : String)
    (categories : List InfoCategory) : ℚ :=
  let s0 : ℚ := 0
  let s1 := if destHit cfg text then s0 + 3 / 10 else s0
  let s2 := if dayHit cfg text then s1 + 3 / 20 else s1
  let s3 := s2 + min (3 / 20) ((prefMatches cfg text : ℚ) * (1 / 20))
  let s4 := s3 + min (1 / 4) (kwScore text / 25)
  let s5 := s4 + catWeightSum categories * (3 / 100)
  min 1 s5

/-- `_calc_information_density`: density score, key-info lines, updated
seen-places state. -/
def calcDensity (text : String) (seenPlaces : List String) :
    ℚ × List String × List String :=
  let tl := text.data
  let n := tl.length
  let k0 : List String := []
  let times := reFindAll timeRx tl
  let k1 :=
    if times.isEmpty then k0
    else k0 ++ ["时间: " ++ joinSep ", " (firstDedup (times.take 3))]
  let prices := reFindAll (priceRx n) tl
  let k2 :=
    if prices.isEmpty then k1
    else k1 ++ ["价格: " ++ joinSep ", " (firstDedup (prices.take 3))]
  let opens := reFindAll (openTimeRx n) tl
  let k3 :=
    if opens.isEmpty then k2 else k2 ++ ["开放: " ++ opens.headD ""]
  let tickets := reFindAll (ticketRx n) tl
  let k4 :=
    if tickets.isEmpty then k3
    else k3 ++ ["门票: " ++ joinSep ", " (firstDedup (tickets.take 2))]
  let transports := reFindAll (transportRx n) tl
  let k5 :=
    if transports.isEmpty then k4
    else k4 ++ ["交通: " ++ joinSep ", " (firstDedup (transports.take 3))]
  let places := reFindAll placeRx tl
  let newPlaces := places.filter (fun p => !seenPlaces.contains p)
  let k6 :=
    if newPlaces.isEmpty then k5
    else k5 ++ ["景点: " ++ joinSep ", " (newPlaces.take 5)]
  let seen' :=
    if newPlaces.isEmpty then seenPlaces else pyUnion seenPlaces newPlaces
  let rests := reFindAll restaurantRx tl
  let k7 :=
    if rests.isEmpty then k6
    else k6 ++ ["餐厅: " ++ joinSep ", " (firstDedup (rests.take 3))]
  let avoids := reFindAll avoidRx tl
  let k8 :=
    if avoids.isEmpty then k7
    else k7 ++ ["避坑: " ++ String.mk ((avoids.headD "").data.take 20)]
  let textLen : ℚ := max (n : ℚ) 1
  let density := min 1 ((k8.length : ℚ) / max (textLen / 150) 1)
  (density, k8, seen')

/-- `_calc_uniqueness`: uniqueness score and updated seen-info state. -/
def calcUniqueness (keyInfo seenInfo : List String) : ℚ × List String :=
  if keyInfo.isEmpty then (1 / 2, seenInfo)
  else
    let newInfo := keyInfo.filter (fun i => !seenInfo.contains i)
    ((newInfo.length : ℚ) / (keyInfo.length : ℚ), pyUnion seenInfo keyInfo)

/-- `_calc_penalty`. -/
def calcPenalty (text : String) : ℚ :=
  let cnt : ℚ :=
    (lowValueMarkers.countP (fun m => containsSub m text.data) : ℚ) +
      (if text.data.length < 100 then 1 else 0)
  min (1 / 2) (cnt * (1 / 10))

structure NoteScore where
  relevance : ℚ
  density : ℚ
  uniqueness : ℚ
  finalScore : ℚ
  keyInfo : List String
  categories : List InfoCategory
deriving DecidableEq, Repr

/-- `f"{title} {content}".lower()`. -/
def noteText (title content : String) : String :=
  String.mk (lowerC (title ++ " " ++ content).data)

/-- `_evaluate_single_note`.  The note's likes are already an integer (the
string-coercion branches of `_safe_int` are outside the model). -/
def evaluateSingleNote (cfg : EvalCfg) (st : EvalState)
    (title content : String) (likes : Int) : NoteScore × EvalState :=
  let text := noteText title content
  let categories := detectCategories text
  let relevance := calcRelevance cfg text categories
  let dres := calcDensity text st.seenPlaces
  let density := dres.1
  let keyInfo := dres.2.1
  let seenPlaces' := dres.2.2
  let ures := calcUniqueness keyInfo st.seenInfo
  let uniqueness := ures.1
  let seenInfo' := ures.2
  let social : ℚ := if 0 < likes then min (3 / 20) ((likes : ℚ) / 10000) else 0
  let penalty := calcPenalty text
  let catBonus : ℚ :=
    if cfg.targetCategories.isEmpty then 0
    else (((categories.map categoryName).filter
      (fun c => cfg.targetCategories.contains c)).length : ℚ) * (1 / 10)
  let final := (relevance * (1 / 4) + density * (7 / 20) +
    uniqueness * (1 / 5) + social + catBonus) * (1 - penalty)
  (⟨relevance, density, uniqueness, final, keyInfo.take 5, categories⟩,
    ⟨seenInfo', seenPlaces'⟩)

/-! ## Tracking one place name through the merge (for the backfill claim) -/

theorem filter_map_pres {α : Type} {P : α → Bool} {f : α → α}
    (h1 : ∀ q, P (f q) = P q) (h2 : ∀ q, P q = true → f q = q) :
    ∀ l : List α, (l.map f).filter P = l.filter P := by
  intro l
  induction l with
  | nil => rfl
  | cons q rest ih =>
    simp only [List.map_cons, List.filter_cons, h1 q]
    by_cases hq : P q = true
    · rw [if_pos hq, if_pos hq, h2 q hq, ih]
    · rw [if_neg hq, if_neg hq, ih]

theorem filter_map_comm {α : Type} {P : α → Bool} {f : α → α}
    (h1 : ∀ q, P (f q) = P q) :
    ∀ l : List α, (l.map f).filter P = (l.filter P).map f := by
  intro l
  induction l with
  | nil => rfl
  | cons q rest ih =>
    simp only [List.map_cons, List.filter_cons, h1 q]
    by_cases hq : P q = true
    · rw [if_pos hq, if_pos hq, List.map_cons, ih]
    · rw [if_neg hq, if_neg hq, ih]

theorem filter_insertPlaceRaw_miss {n : String} {x : Place}
    (hx : (x.name == n) = false) (m : List Place) :
    (insertPlaceRaw m x).filter (fun r => r.name == n)
      = m.filter (fun r => r.name == n) := by
  unfold insertPlaceRaw
  by_cases ha : m.any (fun q => q.name == x.name) = true
  · rw [if_pos ha]
    refine filter_map_pres ?_ ?_ m
    · intro q
      by_cases hq : (q.name == x.name) = true
      · rw [if_pos hq]
        have : q.name = x.name := by simpa using hq
        simp [this]
      · rw [if_neg hq]
    · intro q hPq
      have hqn : q.name = n := by simpa using hPq
      have hxn : x.name ≠ n := by simpa using hx
      rw [if_neg]
      simp [hqn]
      exact fun h => hxn h.symm
  · rw [if_neg ha, List.filter_append]
    simp [hx]

theorem filter_insertPlaceRaw_hit {n : String} {x : Place}
    (hx : (x.name == n) = true) {m : List Place}
    (hm : m.filter (fun r => r.name == n) = []) :
    (insertPlaceRaw m x).filter (fun r => r.name == n) = [x] := by
  unfold insertPlaceRaw
  have ha : m.any (fun q => q.name == x.name) = false := by
    rw [List.any_eq_false]
    intro q hq hcon
    have hqx : q.name = x.name := by simpa using hcon
    have hxn : x.name = n := by simpa using hx
    have : q ∈ m.filter (fun r => r.name == n) :=
      List.mem_filter.2 ⟨hq, by simp [hqx, hxn]⟩
    rw [hm] at this
    exact List.not_mem_nil q this
  rw [if_neg (by simp [ha]), List.filter_append, hm]
  simp [hx]

theorem foldl_insert_filter_none {n : String} :
    ∀ (l m : List Place), l.filter (fun r => r.name == n) = [] →
      (l.foldl insertPlaceRaw m).filter (fun r => r.name == n)
        = m.filter (fun r => r.name == n) := by
  intro l
  induction l with
  | nil => intro m _; rfl
  | cons x rest ih =>
    intro m hl
    rw [List.filter_cons] at hl
    by_cases hx : (x.name == n) = true
    · rw [if_pos hx] at hl
      exact absurd hl (by simp)
    · rw [if_neg hx] at hl
      rw [List.foldl_cons, ih _ hl,
        filter_insertPlaceRaw_miss (Bool.not_eq_true _ ▸ hx) m]

theorem foldl_insert_filter_one {n : String} :
    ∀ (l m : List Place) (p : Place),
      l.filter (fun r => r.name == n) = [p] →
      m.filter (fun r => r.name == n) = [] →
      (l.foldl insertPlaceRaw m).filter (fun r => r.name == n) = [p] := by
  intro l
  induction l with
  | nil =>
    intro m p hl _
    exact absurd hl (by simp)
  | cons x rest ih =>
    intro m p hl hm
    rw [List.filter_cons] at hl
    by_cases hx : (x.name == n) = true
    · rw [if_pos hx] at hl
      have hxp : x = p := (List.cons_eq_cons.1 hl).1
      have hrest : rest.filter (fun r => r.name == n) = [] :=
        (List.cons_eq_cons.1 hl).2
      rw [List.foldl_cons, foldl_insert_filter_none rest _ hrest,
        filter_insertPlaceRaw_hit hx hm, hxp]
    · rw [if_neg hx] at hl
      rw [List.foldl_cons]
      refine ih _ p hl ?_
      rw [filter_insertPlaceRaw_miss (Bool.not_eq_true _ ▸ hx) m, hm]

theorem fillPlace_name_of_ne {q p : Place} (h : q.name ≠ "") :
    (fillPlace q p).name = q.name := by
  show fillField q.name p.name = q.name
  unfold fillField
  rw [if_neg]
  rintro ⟨_, hc⟩
  exact h hc

theorem filter_mergePlaceInto_miss {n : String} {x : Place}
    (hx : (x.name == n) = false) (m : List Place) :
    (mergePlaceInto m x).filter (fun r => r.name == n)
      = m.filter (fun r => r.name == n) := by
  unfold mergePlaceInto
  by_cases he : x.name = ""
  · rw [if_pos he]
  · rw [if_neg he]
    by_cases ha : m.any (fun q => q.name == x.name) = true
    · rw [if_pos ha]
      refine filter_map_pres ?_ ?_ m
      · intro q
        by_cases hq : (q.name == x.name) = true
        · rw [if_pos hq]
          have hqx : q.name = x.name := by simpa using hq
          have : (fillPlace q x).name = q.name :=
            fillPlace_name_of_ne (by rw [hqx]; exact he)
          simp [this]
        · rw [if_neg hq]
      · intro q hPq
        have hqn : q.name = n := by simpa using hPq
        have hxn : x.name ≠ n := by simpa using hx
        rw [if_neg]
        simp [hqn]
        exact fun h => hxn h.symm
    · rw [if_neg ha, List.filter_append]
      simp [hx]

theorem filter_mergePlaceInto_hit {n : String} (hn : n ≠ "") {x : Place}
    (hx : (x.name == n) = true) {m : List Place} {y : Place}
    (hm : m.filter (fun r => r.name == n) = [y]) :
    (mergePlaceInto m x).filter (fun r => r.name == n)
      = [fillPlace y x] := by
  have hxn : x.name = n := by simpa using hx
  have hymem : y ∈ m.filter (fun r => r.name == n) := by
    rw [hm]; exact List.mem_singleton.2 rfl
  have hyn : y.name = n := by
    have := (List.mem_filter.1 hymem).2
    simpa using this
  unfold mergePlaceInto
  rw [if_neg (by rw [hxn]; exact hn)]
  have ha : m.any (fun q => q.name == x.name) = true := by
    rw [List.any_eq_true]
    exact ⟨y, (List.mem_filter.1 hymem).1, by simp [hyn, hxn]⟩
  rw [if_pos ha]
  have h1 : ∀ q : Place,
      (fun r : Place => r.name == n)
        (if q.name == x.name then fillPlace q x else q)
      = (fun r : Place => r.name == n) q := by
    intro q
    by_cases hq : (q.name == x.name) = true
    · rw [if_pos hq]
      have hqx : q.name = x.name := by simpa using hq
      have : (fillPlace q x).name = q.name :=
        fillPlace_name_of_ne (by rw [hqx, hxn]; exact hn)
      simp [this]
    · rw [if_neg hq]
  rw [filter_map_comm h1 m, hm, List.map_singleton,
    if_pos (by simp [hyn, hxn])]

theorem foldl_merge_filter_none {n : String} :
    ∀ (l m : List Place), l.filter (fun r => r.name == n) = [] →
      (l.foldl mergePlaceInto m).filter (fun r => r.name == n)
        = m.filter (fun r => r.name == n) := by
  intro l
  induction l with
  | nil => intro m _; rfl
  | cons x rest ih =>
    intro m hl
    rw [List.filter_cons] at hl
    by_cases hx : (x.name == n) = true
    · rw [if_pos hx] at hl
      exact absurd hl (by simp)
    · rw [if_neg hx] at hl
      rw [List.foldl_cons, ih _ hl,
        filter_mergePlaceInto_miss (Bool.not_eq_true _ ▸ hx) m]

theorem foldl_merge_filter_one {n : String} (hn : n ≠ "") :
    ∀ (l m : List Place) (x y : Place),
      l.filter (fun r => r.name == n) = [x] →
      m.filter (fun r => r.name == n) = [y] →
      (l.foldl mergePlaceInto m).filter (fun r => r.name == n)
        = [fillPlace y x] := by
  intro l
  induction l with
  | nil =>
    intro m x y hl _
    exact absurd hl (by simp)
  | cons h rest ih =>
    intro m x y hl hm
    rw [List.filter_cons] at hl
    by_cases hh : (h.name == n) = true
    · rw [if_pos hh] at hl
      have hhp : h = x := (List.cons_eq_cons.1 hl).1
      have hrest : rest.filter (fun r => r.name == n) = [] :=
        (List.cons_eq_cons.1 hl).2
      rw [List.foldl_cons, foldl_merge_filter_none rest _ hrest,
        filter_mergePlaceInto_hit hn hh hm, hhp]
    · rw [if_neg hh] at hl
      rw [List.foldl_cons]
      refine ih _ x y hl ?_
      rw [filter_mergePlaceInto_miss (Bool.not_eq_true _ ▸ hh) m, hm]

theorem mergePlaces_filter_one {n : String} (hn : n ≠ "")
    {ex news : List Place} {p q : Place}
    (hex : ex.filter (fun r => r.name == n) = [p])
    (hnew : news.filter (fun r => r.name == n) = [q]) :
    (mergePlaces ex news).filter (fun r => r.name == n)
      = [fillPlace p q] := by
  unfold mergePlaces
  have hbuilt : (buildPlaceMap ex).filter (fun r => r.name == n) = [p] :=
    foldl_insert_filter_one ex [] p hex rfl
  exact foldl_merge_filter_one hn news _ q p hnew hbuilt

/-! ## The claims -/

/-- C1: for every extraction-payload oracle and configured `max_searches`,
the compiled graph reaches END after at most `max maxS 1` Search→Extract
cycles (one cycle always runs, even for `maxS = 0`, because the entry node
is `search`), exactly one plan invocation occurs, and once the completed
round count reaches `maxS` the quality gate answers `"enough"` regardless
of the accumulator. -/
theorem C1_search_loop_bounded (maxS : Nat) (payload : Nat → Extracted) :
    countNode WFNode.search (workflowTrace maxS payload) ≤ max maxS 1 ∧
    countNode WFNode.plan (workflowTrace maxS payload) = 1 ∧
    ∀ (searchCount : Nat) (e : Extracted), maxS ≤ searchCount →
      checkInfoQuality searchCount maxS e = "enough" := by
  refine ⟨?_, ?_, ?_⟩
  · have h := traceFrom_search_count maxS payload maxS 0 emptyExtracted
      (by omega)
    simp only [workflowTrace]
    simpa [Nat.sub_zero] using h
  · exact traceFrom_plan_count maxS payload maxS 0 emptyExtracted (by omega)
  · intro searchCount e h
    exact checkInfoQuality_maxed e h

/-- A concrete run under C1: `max_searches = 2` with empty payloads gives
at most two search rounds, one plan call, and an `"enough"` verdict at the
cap. -/
theorem C1_search_loop_bounded_witness :
    countNode WFNode.search (workflowTrace 2 (fun _ => emptyExtracted))
      ≤ max 2 1 ∧
    countNode WFNode.plan (workflowTrace 2 (fun _ => emptyExtracted))
      = 1 ∧
    checkInfoQuality 2 2 emptyExtracted = "enough" :=
  ⟨(C1_search_loop_bounded 2 (fun _ => emptyExtracted)).1,
   (C1_search_loop_bounded 2 (fun _ => emptyExtracted)).2.1,
   (C1_search_loop_bounded 2 (fun _ => emptyExtracted)).2.2 2
     emptyExtracted (le_refl 2)⟩

/-- With `max_searches = 0` the graph still runs one full Search→Extract
cycle before the gate can stop it, exceeding the configured bound of zero
cycles. -/
theorem C1_zero_rounds_counterexample :
    countNode WFNode.search (workflowTrace 0 (fun _ => emptyExtracted)) = 1
    ∧ ¬ countNode WFNode.search
        (workflowTrace 0 (fun _ => emptyExtracted)) ≤ 0 := by
  have h : workflowTrace 0 (fun _ => emptyExtracted)
      = [WFNode.search, WFNode.extract, WFNode.plan] := by
    unfold workflowTrace
    rw [traceFrom, dif_pos (checkInfoQuality_maxed _ (by omega))]
  rw [h]
  exact ⟨by decide, by decide⟩

/-- C2: the accumulator merge is idempotent provided the payload's
verbatim-copied list fields are duplicate-free — the transportation
local-transit tips and each payload area's reasons and nearby lists.  (The
unconditional statement is false: those lists are copied verbatim on first
contact but set-unioned on re-merge, see the counterexample.) -/
theorem C2_merge_idempotent (A E : Extracted)
    (ht : ∀ t, E.transportation = some t → t.localTips.Nodup)
    (hacc : ∀ acc, E.accommodation = some acc →
      ∀ a ∈ acc.recommended_areas, a.reasons.Nodup ∧ a.nearby.Nodup) :
    mergeExtracted (mergeExtracted A E) E = mergeExtracted A E :=
  mergeExtracted_idem_of A E ht hacc

/-- A concrete duplicate-free payload merged twice into the empty
accumulator: the second merge is a no-op. -/
theorem C2_merge_idempotent_witness :
    mergeExtracted
      (mergeExtracted emptyExtracted
        ⟨[], [], some ⟨"高铁直达", ["地铁"]⟩,
         some ⟨[⟨"新街口", ["繁华"], ["夫子庙"], "", ""⟩], ["提前预订"]⟩,
         none, [], ["带伞"]⟩)
      ⟨[], [], some ⟨"高铁直达", ["地铁"]⟩,
       some ⟨[⟨"新街口", ["繁华"], ["夫子庙"], "", ""⟩], ["提前预订"]⟩,
       none, [], ["带伞"]⟩
    = mergeExtracted emptyExtracted
        ⟨[], [], some ⟨"高铁直达", ["地铁"]⟩,
         some ⟨[⟨"新街口", ["繁华"], ["夫子庙"], "", ""⟩], ["提前预订"]⟩,
         none, [], ["带伞"]⟩ :=
  C2_merge_idempotent emptyExtracted
    ⟨[], [], some ⟨"高铁直达", ["地铁"]⟩,
     some ⟨[⟨"新街口", ["繁华"], ["夫子庙"], "", ""⟩], ["提前预订"]⟩,
     none, [], ["带伞"]⟩
    (by intro t h; cases h; decide)
    (by intro acc h; cases h; decide)

/-- A payload whose transportation local-tips list contains a duplicate:
the first merge copies it verbatim, the second merge set-unions it, so
merging the same extraction twice is not a no-op. -/
theorem C2_merge_counterexample :
    mergeExtracted
        (mergeExtracted emptyExtracted
          ⟨[], [], some ⟨"", ["公交", "公交"]⟩, none, none, [], []⟩)
        ⟨[], [], some ⟨"", ["公交", "公交"]⟩, none, none, [], []⟩
      ≠ mergeExtracted emptyExtracted
          ⟨[], [], some ⟨"", ["公交", "公交"]⟩, none, none, [], []⟩ := by
  decide

/-- C3: place merging backfills but never overwrites.  If the accumulator
holds exactly one record named `n` and the payload exactly one record with
the same (non-empty) name, the merged accumulator holds exactly one record
named `n`, equal to the field-wise backfill `fillPlace p q`; and the
backfill `fillField` keeps a non-empty existing field and fills an empty
one from the payload. -/
theorem C3_place_backfill (A E : Extracted) (n : String) (p q : Place)
    (hn : n ≠ "")
    (hex : A.places.filter (fun r => r.name == n) = [p])
    (hnew : E.places.filter (fun r => r.name == n) = [q]) :
    (mergeExtracted A E).places.filter (fun r => r.name == n)
        = [fillPlace p q] ∧
    ∀ old new : String, fillField old new
        = if old = "" then new else old := by
  constructor
  · exact mergePlaces_filter_one hn hex hnew
  · intro old new
    unfold fillField
    by_cases ho : old = ""
    · rw [if_pos ho]
      by_cases hw : new = ""
      · rw [if_neg (by simp [hw]), ho, hw]
      · rw [if_pos ⟨hw, ho⟩]
    · rw [if_neg (fun h => ho h.2), if_neg ho]

/-- The Old Tower scenario of C3: `{"name": "Old Tower"}` merged, then
`{"name": "Old Tower", "ticket": "free"}`: exactly one Old Tower entry
remains and its ticket field reads `"free"`. -/
theorem C3_place_backfill_witness :
    (mergeExtracted
        (mergeExtracted emptyExtracted
          ⟨[], [⟨"Old Tower", "", "", "", "", "", ""⟩], none, none, none,
           [], []⟩)
        ⟨[], [⟨"Old Tower", "", "", "free", "", "", ""⟩], none, none, none,
         [], []⟩).places.filter (fun r => r.name == "Old Tower")
      = [fillPlace ⟨"Old Tower", "", "", "", "", "", ""⟩
          ⟨"Old Tower", "", "", "free", "", "", ""⟩] ∧
    (fillPlace ⟨"Old Tower", "", "", "", "", "", ""⟩
        ⟨"Old Tower", "", "", "free", "", "", ""⟩).ticket = "free" :=
  ⟨(C3_place_backfill
      (mergeExtracted emptyExtracted
        ⟨[], [⟨"Old Tower", "", "", "", "", "", ""⟩], none, none, none,
         [], []⟩)
      ⟨[], [⟨"Old Tower", "", "", "free", "", "", ""⟩], none, none, none,
       [], []⟩
      "Old Tower"
      ⟨"Old Tower", "", "", "", "", "", ""⟩
      ⟨"Old Tower", "", "", "free", "", "", ""⟩
      (by decide) (by decide) (by decide)).1,
   by decide⟩

/-- Whether a parsed JSON value is a dict. -/
def isObj : Json → Bool
  | Json.obj _ => true
  | _ => false

/-- C4: `_safe_parse_json` is total — for every input it returns either the
value parsed from one of its four recovery candidates (the extracted span,
the comment/trailing-comma repair, the quote replacement, or the
line-by-line repair) or the caller-supplied default, never an exception —
and on the four scenario classes it returns the fenced object, the
trailing-comma-repaired object, the single-quote-repaired object, and the
default on pure prose.  (It does not always return a dict: see the
counterexample.) -/
theorem C4_json_recovery :
    (∀ (content : String) (dflt : Json),
      safeParse content dflt = dflt ∨
      pyLoads (extractJson content) = some (safeParse content dflt) ∨
      pyLoads (fixJsonString (extractJson content))
        = some (safeParse content dflt) ∨
      pyLoads (String.mk (replaceC [sqc] [dqc] (extractJson content).data))
        = some (safeParse content dflt) ∨
      pyLoads (fixJsonLineByLine (extractJson content))
        = some (safeParse content dflt)) ∧
    safeParse "```json\n\x7b\"city\": \"Nanjing\", \"days\": 3\x7d\n```"
        (Json.obj [])
      = Json.obj [("city", Json.str "Nanjing"), ("days", Json.num 3)] ∧
    safeParse "\x7b\"a\": 1,\x7d" (Json.obj [])
      = Json.obj [("a", Json.num 1)] ∧
    safeParse ("\x7b" ++ String.mk [sqc] ++ "a" ++ String.mk [sqc]
        ++ ": 1\x7d") (Json.obj [])
      = Json.obj [("a", Json.num 1)] ∧
    safeParse "Sorry, there is no structured answer here."
        (Json.obj [("fallback", Json.bool true)])
      = Json.obj [("fallback", Json.bool true)] := by
  refine ⟨?_, by rfl, by rfl, by rfl, by rfl⟩
  intro content dflt
  by_cases hc : content = ""
  · left
    simp [safeParse, hc]
  · simp only [safeParse, if_neg hc]
    cases h1 : pyLoads (extractJson content) with
    | some v => right; left; rfl
    | none =>
      cases h2 : pyLoads (fixJsonString (extractJson content)) with
      | some v => right; right; left; rfl
      | none =>
        cases h3 : pyLoads (String.mk
            (replaceC [sqc] [dqc] (extractJson content).data)) with
        | some v => right; right; right; left; rfl
        | none =>
          cases h4 : pyLoads (fixJsonLineByLine (extractJson content)) with
          | some v => right; right; right; right; rfl
          | none => left; rfl

/-- An input that parses to a bare number: `_safe_parse_json` returns it
as-is, so the result is not always a value of the expected container
type. -/
theorem C4_json_recovery_counterexample :
    safeParse "42" (Json.obj []) = Json.num 42 ∧
    isObj (safeParse "42" (Json.obj [])) = false := by
  exact ⟨by rfl, by rfl⟩

/-- C5: check (a) of the quality gate is governed by valid routes alone —
the `"places"` tag is raised exactly when no route has a non-empty daily
sub-plan, regardless of how many standalone places the accumulator holds.
(The spec's alternative of at least 3 standalone places never satisfies
check (a): see the counterexample.) -/
theorem C5_places_tag_iff_no_valid_route (e : Extracted)
    (searchCount : Nat) :
    "places" ∈ computeMissing e searchCount ↔ validRoutes e = [] := by
  have key : ∀ (m : List String) (t : String), t ≠ "places" →
      (("places" : String) ∈ m ++ [t] ↔ "places" ∈ m) := by
    intro m t ht
    rw [List.mem_append, List.mem_singleton]
    constructor
    · rintro (h | h)
      · exact h
      · exact absurd h (fun hc => ht hc.symm)
    · exact Or.inl
  have h5 : ∀ (m : List String),
      (("places" : String) ∈ (if 2 ≤ searchCount then
        match e.transportation with
        | none => m ++ ["transportation"]
        | some t => if t.arrival = "" then m ++ ["transportation"] else m
      else m) ↔ "places" ∈ m) := by
    intro m
    by_cases hs : 2 ≤ searchCount
    · rw [if_pos hs]
      cases e.transportation with
      | none => exact key m "transportation" (by decide)
      | some t =>
        show ("places" ∈ if t.arrival = "" then m ++ ["transportation"]
          else m) ↔ "places" ∈ m
        by_cases ha : t.arrival = ""
        · rw [if_pos ha]
          exact key m "transportation" (by decide)
        · rw [if_neg ha]
    · rw [if_neg hs]
  have h4 : ∀ (m : List String),
      (("places" : String) ∈ (match e.accommodation with
        | some acc =>
          if (acc.recommended_areas.filter
              (fun a : Area => a.area ≠ "")).length < 1 then
            m ++ ["accommodation"]
          else m
        | none => m ++ ["accommodation"]) ↔ "places" ∈ m) := by
    intro m
    cases e.accommodation with
    | none => exact key m "accommodation" (by decide)
    | some acc =>
      show ("places" ∈ if (acc.recommended_areas.filter
          (fun a : Area => a.area ≠ "")).length < 1 then
          m ++ ["accommodation"] else m) ↔ "places" ∈ m
      by_cases hc : (acc.recommended_areas.filter
          (fun a => a.area ≠ "")).length < 1
      · rw [if_pos hc]
        exact key m "accommodation" (by decide)
      · rw [if_neg hc]
  have h3 : ∀ (m : List String),
      (("places" : String) ∈ (if foodCount e < 2 then m ++ ["food"] else m)
        ↔ "places" ∈ m) := by
    intro m
    by_cases hf : foodCount e < 2
    · rw [if_pos hf]
      exact key m "food" (by decide)
    · rw [if_neg hf]
  simp only [computeMissing]
  rw [h5, h4, h3]
  by_cases hv : (validRoutes e).length < 1
  · rw [if_pos hv]
    have hnil : validRoutes e = [] := List.length_eq_zero.1 (by omega)
    by_cases hp : e.places.length < 3
    · rw [if_pos ⟨hp, hv⟩, if_pos (by decide)]
      exact iff_of_true (by decide) hnil
    · rw [if_neg (fun hc => hp hc.1)]
      exact iff_of_true (by decide) hnil
  · rw [if_neg hv, if_neg (fun hc => hv hc.2)]
    refine iff_of_false (by decide) ?_
    intro hc
    exact hv (by rw [hc]; decide)

/-- An accumulator with three standalone places and no route: check (a)
still raises the `"places"` tag, so standalone places cannot satisfy
it. -/
theorem C5_three_places_counterexample :
    "places" ∈ computeMissing
      ⟨[], [⟨"夫子庙", "", "", "", "", "", ""⟩,
            ⟨"中山陵", "", "", "", "", "", ""⟩,
            ⟨"玄武湖", "", "", "", "", "", ""⟩],
       none, none, none, [], []⟩ 0 := by
  decide

/-- C6: when the accumulator holds no route but at least one standalone
place (and at least one day is requested), the fallback composer returns
exactly one day entry per requested day.  (With an entirely empty
accumulator it returns an empty day list, not a skeleton: see the
counterexample.) -/
theorem C6_fallback_day_count (u : UserProfile) (e : Extracted)
    (hr : e.routes = []) (hp : e.places ≠ []) (hd : 1 ≤ u.days) :
    (createFallbackPlan u e).days.length = u.days := by
  show (match e.routes with
    | r :: rs => routeDays u.days (chooseRoute u.days r rs)
    | [] => if e.places.isEmpty then [] else placeDays u.days
        e.places).length = u.days
  rw [hr]
  rw [if_neg (by simpa using hp)]
  unfold placeDays
  rw [List.length_map, List.length_range]

/-- The max-rounds-exhausted scenario of C6: three accumulated places and a
three-day request give exactly three day entries. -/
theorem C6_fallback_day_count_witness :
    (createFallbackPlan ⟨"南京", 3, none, none, []⟩
      ⟨[], [⟨"夫子庙", "", "", "", "", "", ""⟩,
            ⟨"中山陵", "", "", "", "", "", ""⟩,
            ⟨"玄武湖", "", "", "", "", "", ""⟩],
       none, none, none, [], []⟩).days.length = 3 :=
  C6_fallback_day_count ⟨"南京", 3, none, none, []⟩
    ⟨[], [⟨"夫子庙", "", "", "", "", "", ""⟩,
          ⟨"中山陵", "", "", "", "", "", ""⟩,
          ⟨"玄武湖", "", "", "", "", "", ""⟩],
     none, none, none, [], []⟩
    rfl (by decide) (by decide)

/-- An entirely empty accumulator with three requested days: the fallback
returns an empty day list rather than a three-day skeleton. -/
theorem C6_empty_accumulator_counterexample :
    (createFallbackPlan ⟨"南京", 3, none, none, []⟩ emptyExtracted).days
        = [] ∧
    ¬ (createFallbackPlan ⟨"南京", 3, none, none, []⟩
        emptyExtracted).days.length = 3 := by
  exact ⟨by rfl, by decide⟩

/-- C7: `TravelPlanTool._run` cannot complete for any input: the token
budget built at line 103 — before the `try` at line 115 — passes the
keyword arguments `summary`, `planning` and `refine` to a `TokenBudget`
dataclass whose fields are `extract`, `plan`, `max_notes_per_search`,
`max_note_length`, `max_context_length`, `total_budget` and `consumed`,
so every call raises `TypeError` outside any handler, contradicting the
boundary contract of the three structured terminal payloads. -/
theorem C7_tool_raises_typeerror :
    (∀ (qualityLevel : String) (graphAvailable : Bool)
        (graphOutcome : String),
      runTool qualityLevel graphAvailable graphOutcome
        = RunOutcome.exn
          "TypeError: TokenBudget.init() got an unexpected keyword argument") ∧
    pyCallOk tokenBudgetFields tokenBudgetCallKwargs = false := by
  constructor
  · intro qualityLevel graphAvailable graphOutcome
    unfold runTool
    rw [if_neg]
    rw [show pyCallOk tokenBudgetFields tokenBudgetCallKwargs = false
      from by decide]
    decide
  · decide

/-- C8: over a whole run — a core round followed by any number of
supplement rounds whose LLM batches are in-batch duplicate-free — no query
string is ever issued twice: each batch is de-duplicated against the shared
history and the concatenated output is duplicate-free.  (The in-batch
hypothesis is needed: the supplement path filters only against the history,
and the template fallback against nothing, see the counterexample.) -/
theorem C8_queries_deduplicated (d : String) (days : Nat) (o : RoundOracle)
    (rest : List RoundOracle)
    (hsupp : ∀ x ∈ rest, ∃ qs, x.supp = some qs ∧ qs.Nodup) :
    (runQueries d days 0 [] (o :: rest)).Nodup := by
  have hrun : runQueries d days 0 [] (o :: rest)
      = roundQueries d days 1 [] o ++
        runQueries d days 1
          (if (roundQueries d days 1 [] o).isEmpty then ([] : List String)
           else [] ++ roundQueries d days 1 [] o) rest := by
    simp only [runQueries]
  have hq : roundQueries d days 1 [] o
      = generateCoreQueries o.core d days := by
    unfold roundQueries
    rw [if_pos rfl]
  rw [hrun, hq]
  set Q0 := generateCoreQueries o.core d days with hQ0
  set searched' := if Q0.isEmpty then ([] : List String) else [] ++ Q0
    with hsdef
  have hrest := runQueries_supp_nodup d days rest 1 searched'
    (le_refl 1) hsupp
  have hmemQ : ∀ q ∈ Q0, q ∈ searched' := by
    intro q hqm
    have he : ¬ Q0.isEmpty = true := by
      intro hcon
      rw [List.isEmpty_iff.1 hcon] at hqm
      exact List.not_mem_nil q hqm
    rw [hsdef, if_neg he]
    exact List.mem_append.2 (Or.inr hqm)
  rw [List.nodup_append]
  refine ⟨generateCoreQueries_nodup o.core d days, hrest.1, ?_⟩
  intro q hqm hqr
  exact hrest.2 q hqr (hmemQ q hqm)

/-- A run under C8: a fallback core round and one duplicate-free LLM
supplement round issue every query once. -/
theorem C8_queries_deduplicated_witness :
    (runQueries "南京" 3 0 []
      [⟨none, none, []⟩, ⟨none, some ["南京 小众景点"], []⟩]).Nodup :=
  C8_queries_deduplicated "南京" 3 ⟨none, none, []⟩
    [⟨none, some ["南京 小众景点"], []⟩]
    (by
      intro x hx
      rw [List.mem_singleton.1 hx]
      exact ⟨["南京 小众景点"], rfl, List.nodup_singleton _⟩)

/-- Two supplement rounds that both fall back to the degraded templates
with the same missing-info tag: the same template query is issued twice, so
the concatenated output is not duplicate-free. -/
theorem C8_fallback_duplicate_counterexample :
    ¬ (runQueries "南京" 3 1 ["南京 3天旅游攻略"]
        [⟨none, none, ["food"]⟩, ⟨none, none, ["food"]⟩]).Nodup := by
  decide

/-- C9: the normalizer returns a truthy `poi` field verbatim — no verb
stripping or arrow collapsing is applied to it; the keyword-based verb
stripping runs only in the fallback that derives a poi from the `activity`
text when the `poi`/`location`/`name`/`place` fields are all missing or
empty, as in the second conjunct, where `"游览中山陵，感受历史"` yields the
bare noun `"中山陵"`. -/
theorem C9_poi_normalization :
    (∀ (item : SItem) (s : String), item.poi = some s → s ≠ "" →
      (normalizeScheduleItem item).poi = s) ∧
    (normalizeScheduleItem ⟨none, none, none, none, none,
        some "游览中山陵，感受历史", none, none, none, none, none⟩).poi
      = "中山陵" := by
  constructor
  · intro item s hps hs
    show getPoi item = s
    simp [getPoi, poiRaw, hps, orTruthy, hs]
  · rfl

/-- A schedule item whose poi field is already the bare noun `"夫子庙"`:
normalization keeps it unchanged. -/
theorem C9_poi_normalization_witness :
    (normalizeScheduleItem ⟨none, some "夫子庙", none, none, none, none,
        none, none, none, none, none⟩).poi = "夫子庙" :=
  C9_poi_normalization.1
    ⟨none, some "夫子庙", none, none, none, none, none, none, none, none,
     none⟩ "夫子庙" rfl (by decide)

/-- A schedule item whose poi field is the verb phrase `"游览中山陵"`: the
normalizer returns it verbatim instead of stripping the leading verb. -/
theorem C9_verb_kept_counterexample :
    (normalizeScheduleItem ⟨none, some "游览中山陵", none, none, none, none,
        none, none, none, none, none⟩).poi = "游览中山陵" ∧
    ¬ (normalizeScheduleItem ⟨none, some "游览中山陵", none, none, none,
        none, none, none, none, none, none⟩).poi = "中山陵" := by
  exact ⟨by rfl, by decide⟩

theorem relevance_mono_aux (A C k1 k2 : ℚ) (hk : k1 < k2)
    (hcap : k1 < 25 / 4)
    (hcl : min 1 (A + min (1 / 4) (k1 / 25) + C) < 1) :
    min 1 (A + min (1 / 4) (k1 / 25) + C)
      < min 1 (A + min (1 / 4) (k2 / 25) + C) := by
  have h1 : k1 / 25 < 1 / 4 := by
    rw [div_lt_iff₀ (by norm_num : (0 : ℚ) < 25)]
    linarith
  have h2 : k1 / 25 < k2 / 25 := by
    rw [div_lt_div_iff₀ (by norm_num : (0 : ℚ) < 25)
      (by norm_num : (0 : ℚ) < 25)]
    nlinarith
  have hm : min (1 / 4 : ℚ) (k1 / 25) < min (1 / 4) (k2 / 25) := by
    rw [min_eq_right h1.le]
    exact lt_min h1 h2
  have hs : A + min (1 / 4) (k1 / 25) + C
      < A + min (1 / 4) (k2 / 25) + C := by linarith
  have h1lt : A + min (1 / 4) (k1 / 25) + C < 1 := by
    by_contra hcon
    push_neg at hcon
    rw [min_eq_left hcon] at hcl
    exact lt_irrefl _ hcl
  rw [min_eq_right h1lt.le]
  exact lt_min h1lt hs

/-- C10: the evaluator scores the keyword-richer of two notes strictly
higher when all other scoring inputs agree — destination and day-count
hits, preference hits, detected-category weight, density, uniqueness,
penalty, likes and the shared seen-state — provided the poorer note's
keyword weight sits below the cap `25 * 0.25 = 6.25` of
`min(0.25, keyword_score / 25)` and its relevance below the clamp at 1.0.
(Without the two provisos equal scores are possible: see the
counterexample, whose keyword weights 26 and 39 are both capped.) -/
theorem C10_keyword_monotonicity (cfg : EvalCfg) (st : EvalState)
    (title1 content1 title2 content2 : String) (likes : Int)
    (hcat0 : cfg.targetCategories = [])
    (hdest : destHit cfg (noteText title1 content1)
      = destHit cfg (noteText title2 content2))
    (hday : dayHit cfg (noteText title1 content1)
      = dayHit cfg (noteText title2 content2))
    (hpref : prefMatches cfg (noteText title1 content1)
      = prefMatches cfg (noteText title2 content2))
    (hcatw : catWeightSum (detectCategories (noteText title1 content1))
      = catWeightSum (detectCategories (noteText title2 content2)))
    (hkw : kwScore (noteText title1 content1)
      < kwScore (noteText title2 content2))
    (hcap : kwScore (noteText title1 content1) < 25 / 4)
    (hclamp : calcRelevance cfg (noteText title1 content1)
      (detectCategories (noteText title1 content1)) < 1)
    (hden : (calcDensity (noteText title1 content1) st.seenPlaces).1
      = (calcDensity (noteText title2 content2) st.seenPlaces).1)
    (huniq : (calcUniqueness
        (calcDensity (noteText title1 content1) st.seenPlaces).2.1
        st.seenInfo).1
      = (calcUniqueness
        (calcDensity (noteText title2 content2) st.seenPlaces).2.1
        st.seenInfo).1)
    (hpen : calcPenalty (noteText title1 content1)
      = calcPenalty (noteText title2 content2)) :
    (evaluateSingleNote cfg st title1 content1 likes).1.finalScore
      < (evaluateSingleNote cfg st title2 content2 likes).1.finalScore := by
  have hrel : calcRelevance cfg (noteText title1 content1)
      (detectCategories (noteText title1 content1))
      < calcRelevance cfg (noteText title2 content2)
        (detectCategories (noteText title2 content2)) := by
    simp only [calcRelevance] at hclamp ⊢
    rw [hdest, hday, hpref, hcatw] at hclamp ⊢
    exact relevance_mono_aux _ _ _ _ hkw hcap hclamp
  have hple : calcPenalty (noteText title2 content2) ≤ 1 / 2 := by
    simp only [calcPenalty]
    exact min_le_left _ _
  have hcb : ∀ x : ℚ, (if cfg.targetCategories.isEmpty then (0 : ℚ) else x)
      = 0 := by
    intro x
    rw [hcat0]
    rfl
  show (calcRelevance cfg (noteText title1 content1)
        (detectCategories (noteText title1 content1)) * (1 / 4)
      + (calcDensity (noteText title1 content1) st.seenPlaces).1 * (7 / 20)
      + (calcUniqueness
          (calcDensity (noteText title1 content1) st.seenPlaces).2.1
          st.seenInfo).1 * (1 / 5)
      + (if 0 < likes then min (3 / 20) ((likes : ℚ) / 10000) else 0)
      + (if cfg.targetCategories.isEmpty then 0
         else (((List.map categoryName
             (detectCategories (noteText title1 content1))).filter
             (fun c => cfg.targetCategories.contains c)).length : ℚ)
           * (1 / 10)))
      * (1 - calcPenalty (noteText title1 content1))
    < (calcRelevance cfg (noteText title2 content2)
        (detectCategories (noteText title2 content2)) * (1 / 4)
      + (calcDensity (noteText title2 content2) st.seenPlaces).1 * (7 / 20)
      + (calcUniqueness
          (calcDensity (noteText title2 content2) st.seenPlaces).2.1
          st.seenInfo).1 * (1 / 5)
      + (if 0 < likes then min (3 / 20) ((likes : ℚ) / 10000) else 0)
      + (if cfg.targetCategories.isEmpty then 0
         else (((List.map categoryName
             (detectCategories (noteText title2 content2))).filter
             (fun c => cfg.targetCategories.contains c)).length : ℚ)
           * (1 / 10)))
      * (1 - calcPenalty (noteText title2 content2))
  rw [hcb, hcb, hden, huniq, hpen]
  have h1p : (0 : ℚ) < 1 - calcPenalty (noteText title2 content2) := by
    linarith
  apply mul_lt_mul_of_pos_right ?_ h1p
  linarith

set_option maxRecDepth 4000 in
/-- Two notes in the unsaturated regime (keyword weights 2 and 5, relevance
0.38 and 0.5): the keyword-richer note scores strictly higher. -/
theorem C10_keyword_monotonicity_witness :
    (evaluateSingleNote ⟨"南京", 3, [], []⟩ ⟨[], []⟩ ""
        "南京攻略的的的的的的的的的的" 0).1.finalScore
      < (evaluateSingleNote ⟨"南京", 3, [], []⟩ ⟨[], []⟩ ""
          "南京攻略的的的的的的的的的的必去" 0).1.finalScore :=
  C10_keyword_monotonicity ⟨"南京", 3, [], []⟩ ⟨[], []⟩ ""
    "南京攻略的的的的的的的的的的" "" "南京攻略的的的的的的的的的的必去" 0
    rfl
    (by decide)
    (by decide)
    (by decide)
    (by with_unfolding_all decide)
    (by with_unfolding_all decide)
    (by with_unfolding_all decide)
    (by with_unfolding_all decide)
    (by with_unfolding_all decide)
    (by with_unfolding_all decide)
    (by with_unfolding_all decide)

set_option maxRecDepth 4000 in
/-- Two notes identical except that the second additionally contains the
five high-value keywords `day1`, `day2`, `day3`, `顺路`, `老字号`: both
keyword weights (26 and 39) exceed the 6.25-point cap and both relevances
clamp at 1.0, so the evaluator assigns both notes the same final score. -/
theorem C10_capped_equal_counterexample :
    (["day1", "day2", "day3", "顺路", "老字号"].all (fun kw =>
      (highValueKeywords.map Prod.fst).contains kw &&
      containsSub kw (noteText "南京3天攻略"
        "路线行程必去必玩必吃第一天第二天第三天美食历史拍照day1day2day3顺路老字号").data &&
      !containsSub kw (noteText "南京3天攻略"
        "路线行程必去必玩必吃第一天第二天第三天美食历史拍照").data)) = true ∧
    (evaluateSingleNote ⟨"南京", 3, ["美食", "历史", "拍照"], []⟩ ⟨[], []⟩
        "南京3天攻略"
        "路线行程必去必玩必吃第一天第二天第三天美食历史拍照" 0).1.finalScore
      = (evaluateSingleNote ⟨"南京", 3, ["美食", "历史", "拍照"], []⟩
          ⟨[], []⟩ "南京3天攻略"
          "路线行程必去必玩必吃第一天第二天第三天美食历史拍照day1day2day3顺路老字号"
          0).1.finalScore := by
  constructor
  · decide
  · with_unfolding_all decide
